import Mathlib

/-!
Detective Quest: mapa da mansão.

Shallow embedding of `src/algoritmos_avancados.c`.

* C `char` values and the bytes of standard input are natural numbers (`'\n'` is 10,
  `'e'` is 101, ...); a `const char *` argument is the list of bytes that precede its
  terminating NUL.
* `struct Sala` lives in a memory of cells (`Mem`); a pointer is the 1-based index of a
  cell and `0` is `NULL`.  `criarSala` and the assignments of `main` act on that memory.
* The functions that only walk a finished tree (`explorarSalas`, `liberarMemoria`) are
  embedded over the inductive type `Sala`, the tree that a memory holds below a pointer
  (`lerArvore`); every node keeps its own pointer, which is what `free` receives.
* Console output is a list of `Evento`, one constructor per `printf` call of
  `explorarSalas`; standard input is a finite list of bytes followed by end-of-file.
* `explorarSalas` is embedded a second time on pointers, with the memory passed in and
  out (`explorarSalasMem`); on a memory that holds a tree it is proved to make the run of
  the tree embedding and to hand the memory back as it was.
-/

namespace DetectiveQuest

/-! ## Bytes and C strings -/

/-- UTF-8 bytes of a string literal of the source file (the bytes the compiler stores
before the terminating NUL). -/
def bytesDe (s : String) : List Nat :=
  (s.toList.flatMap String.utf8EncodeChar).map UInt8.toNat

/-- The C string held by a byte buffer: the bytes before the first NUL (what `%s` prints). -/
def cstr (buf : List Nat) : List Nat :=
  buf.takeWhile (fun b => b != 0)

/-- The `n` bytes that `strncpy(dest, src, n)` writes to `dest`: the bytes of `src` up to
`n` of them, and NUL padding once the end of `src` is reached. -/
def strncpy : Nat → List Nat → List Nat
  | 0, _ => []
  | n + 1, [] => List.replicate (n + 1) 0
  | n + 1, c :: cs => if c = 0 then List.replicate (n + 1) 0 else c :: strncpy n cs

/-! ## Memory, `struct Sala`, `criarSala` -/

/-- One `struct Sala` in memory: `char nome[50]` and the two child pointers (0 is NULL). -/
structure SalaCel where
  nome : List Nat
  esquerda : Nat
  direita : Nat
  deriving DecidableEq

/-- The heap: the cells allocated so far (the cell of pointer `p` is at index `p - 1`)
and the number of cells the allocator can hand out before `malloc` returns NULL. -/
structure Mem where
  celulas : List SalaCel
  limite : Nat
  deriving DecidableEq

/-- Result of `malloc(sizeof(Sala))`: a fresh pointer, or 0 (NULL) when memory is exhausted. -/
def malloc (m : Mem) : Nat :=
  if m.celulas.length < m.limite then m.celulas.length + 1 else 0

/-- The cell at pointer `p` (`none` for NULL or an address never allocated). -/
def Mem.cel (m : Mem) (p : Nat) : Option SalaCel :=
  if p = 0 then none else m.celulas.get? (p - 1)

/-- Embeds `criarSala` (lines 20-38).  `none` is the `exit(EXIT_FAILURE)` branch taken when
`malloc` returns NULL; otherwise the new cell has bytes 0..48 of `nome` written by
`strncpy(novaSala->nome, nome, 49)`, byte 49 set to NUL, and both pointers NULL. -/
def criarSala (nome : List Nat) (m : Mem) : Option (Nat × Mem) :=
  let novaSala := malloc m
  if novaSala = 0 then none
  else
    some (novaSala,
      { m with celulas := m.celulas ++ [⟨strncpy 49 nome ++ [0], 0, 0⟩] })

/-- The assignment `p->esquerda = q`. -/
def setEsquerda (p q : Nat) (m : Mem) : Mem :=
  { m with celulas := m.celulas.modify (fun c => { c with esquerda := q }) (p - 1) }

/-- The assignment `p->direita = q`. -/
def setDireita (p q : Nat) (m : Mem) : Mem :=
  { m with celulas := m.celulas.modify (fun c => { c with direita := q }) (p - 1) }

/-- Embeds the map construction of `main` (lines 136-156), statement by statement, starting
from memory `m0`.  Returns the pointer `hallEntrada` and the final memory; `none` when a
`criarSala` call exits. -/
def mainMapa (m0 : Mem) : Option (Nat × Mem) := do
  let (hallEntrada, m) ← criarSala (bytesDe "Hall de Entrada") m0
  let (salaEstar, m) ← criarSala (bytesDe "Sala de Estar") m
  let (cozinha, m) ← criarSala (bytesDe "Cozinha") m
  let m := setEsquerda hallEntrada salaEstar m
  let m := setDireita hallEntrada cozinha m
  let (escritorio, m) ← criarSala (bytesDe "Escritório") m
  let (jardim, m) ← criarSala (bytesDe "Jardim") m
  let (biblioteca, m) ← criarSala (bytesDe "Biblioteca") m
  let m := setEsquerda salaEstar escritorio m
  let m := setDireita salaEstar jardim m
  let m := setDireita cozinha biblioteca m
  let (quartoPrincipal, m) ← criarSala (bytesDe "Quarto Principal") m
  let (salaJantar, m) ← criarSala (bytesDe "Sala de Jantar") m
  let m := setEsquerda jardim quartoPrincipal m
  let m := setDireita biblioteca salaJantar m
  some (hallEntrada, m)

/-! ## The tree below a pointer -/

/-- A `Sala *` together with everything reachable from it: `nulo` is NULL; `no p nome e d`
is the node at pointer `p`, whose name (as a C string) is `nome` and whose `esquerda` and
`direita` pointers lead to `e` and `d`. -/
inductive Sala where
  | nulo : Sala
  | no (ptr : Nat) (nome : List Nat) (esquerda direita : Sala) : Sala
  deriving DecidableEq

/-- Reads the tree that memory `m` holds below pointer `p`, following at most `fuel`
levels of pointers; `none` when a pointer dangles or the fuel does not reach every NULL. -/
def lerArvore (m : Mem) : Nat → Nat → Option Sala
  | 0, _ => none
  | fuel + 1, p =>
    if p = 0 then some Sala.nulo
    else
      match m.cel p with
      | none => none
      | some c =>
        match lerArvore m fuel c.esquerda, lerArvore m fuel c.direita with
        | some e, some d => some (Sala.no p (cstr c.nome) e d)
        | _, _ => none

/-- The left wing of the fixed map: Sala de Estar with Escritório (leaf) on the left and
Jardim on the right, Jardim having only the left child Quarto Principal (leaf). -/
def alaEsquerda : Sala :=
  .no 2 (bytesDe "Sala de Estar")
    (.no 4 (bytesDe "Escritório") .nulo .nulo)
    (.no 5 (bytesDe "Jardim")
      (.no 7 (bytesDe "Quarto Principal") .nulo .nulo)
      .nulo)

/-- The right wing of the fixed map: Cozinha with only the right child Biblioteca, which has
only the right child Sala de Jantar (leaf). -/
def alaDireita : Sala :=
  .no 3 (bytesDe "Cozinha")
    .nulo
    (.no 6 (bytesDe "Biblioteca")
      .nulo
      (.no 8 (bytesDe "Sala de Jantar") .nulo .nulo))

/-- The topology of section 4.2 of the specification, as a tree: Hall de Entrada with the
two wings.  The pointers are the order in which `main` allocates the rooms. -/
def mapaFixo : Sala :=
  .no 1 (bytesDe "Hall de Entrada") alaEsquerda alaDireita

/-! ## Console and standard input -/

/-- Console output of `explorarSalas`, one constructor per `printf` call. -/
inductive Evento where
  /-- Line 50: the exploration header. -/
  | cabecalho : Evento
  /-- Line 56: "Você está em: **nome**". -/
  | voceEstaEm (nome : List Nat) : Evento
  /-- Line 60: "FIM DA LINHA! ... Missão cumprida!", the completion banner. -/
  | fimDaLinha : Evento
  /-- Line 65: "Para onde você quer ir? ". -/
  | paraOnde : Evento
  /-- Line 67: "[e] Esquerda (nome) ". -/
  | opcaoEsquerda (nome : List Nat) : Evento
  /-- Line 70: "[d] Direita (nome) ". -/
  | opcaoDireita (nome : List Nat) : Evento
  /-- Line 72: "ou [s] Sair da exploração: ". -/
  | opcaoSair : Evento
  /-- Line 86: "Não há um cômodo para a ESQUERDA. Tente novamente.". -/
  | semEsquerda : Evento
  /-- Line 94: "Não há um cômodo para a DIREITA. Tente novamente.". -/
  | semDireita : Evento
  /-- Line 99: "Encerrando a exploração. ...", the farewell notice. -/
  | encerrando : Evento
  /-- Line 102: "Opção inválida. Digite e, d ou s.". -/
  | opcaoInvalida : Evento
  deriving DecidableEq

/-- How a call of `explorarSalas` ends. -/
inductive Fim where
  /-- The `return` of line 61, at a leaf. -/
  | folha : Fim
  /-- The `return` of line 100, after the choice s or S. -/
  | sair : Fim
  /-- The test `proximo != NULL` of line 53 failed and control fell off the end. -/
  | lacoEncerrado : Fim
  /-- The call never returns: `while (getchar() != 10);` of line 75 met end-of-file, where
  every further `getchar()` answers EOF. -/
  | semRetorno : Fim
  deriving DecidableEq

/-- What a call of `explorarSalas` does: its console output, how it ends, and the bytes of
standard input it leaves unread. -/
structure Resultado where
  saida : List Evento
  fim : Fim
  resto : List Nat
  deriving DecidableEq

/-- The same run with `evs` printed before it. -/
def Resultado.apos (evs : List Evento) (r : Resultado) : Resultado :=
  { r with saida := evs ++ r.saida }

/-- Line 75, `while (getchar() != 10);`: consumes bytes up to and including the next
newline and returns what follows; `none` when the input ends with no newline (the loop
then never exits). -/
def descartarLinha : List Nat → Option (List Nat)
  | [] => none
  | c :: cs => if c = 10 then some cs else descartarLinha cs

/-- C `isspace` in the default locale: space, TAB, LF, VT, FF, CR. -/
def isspace (c : Nat) : Bool :=
  c = 32 || (9 ≤ c && c ≤ 13)

/-- Line 76, `scanf(" %c", &escolha)`: skips white space, then stores the next byte in
`escolha`; at end-of-file nothing is stored and `escolha` keeps its value.  Returns the
value of `escolha` after the call and the unread input. -/
def scanfChar : List Nat → Nat → Nat × List Nat
  | [], escolha => (escolha, [])
  | c :: cs, escolha => if isspace c then scanfChar cs escolha else (c, cs)

/-- Lines 75-76 together: the value of `escolha` after one choice read and the unread
input, or `none` when line 75 never exits. -/
def lerEscolha (entrada : List Nat) (escolha : Nat) : Option (Nat × List Nat) :=
  match descartarLinha entrada with
  | none => none
  | some entrada1 => some (scanfChar entrada1 escolha)

/-! ## `explorarSalas` -/

/-- Lines 65-72: the prompt printed at a room that is not a leaf. -/
def prompt (esquerda direita : Sala) : List Evento :=
  [Evento.paraOnde]
    ++ (match esquerda with
        | .nulo => []
        | .no _ nome _ _ => [Evento.opcaoEsquerda nome])
    ++ (match direita with
        | .nulo => []
        | .no _ nome _ _ => [Evento.opcaoDireita nome])
    ++ [Evento.opcaoSair]

/-- Embeds the `while (proximo != NULL)` loop of `explorarSalas` (lines 53-105), entered
with `proximo` the first argument, standard input `entrada` and the current value of the
variable `escolha`.  An iteration that ends with `proximo == NULL` (lines 78, 86, 94, 102)
is followed by the failing loop test, hence `Fim.lacoEncerrado`. -/
def explorarLaco : Sala → List Nat → Nat → Resultado
  | .nulo, entrada, _ => ⟨[], .lacoEncerrado, entrada⟩
  | .no _ nome esquerda direita, entrada, escolha =>
    if esquerda = .nulo ∧ direita = .nulo then
      ⟨[.voceEstaEm nome, .fimDaLinha], .folha, entrada⟩
    else
      let impresso := Evento.voceEstaEm nome :: prompt esquerda direita
      match lerEscolha entrada escolha with
      | none => ⟨impresso, .semRetorno, []⟩
      | some (escolha, entrada) =>
        if escolha = 101 ∨ escolha = 69 then
          if esquerda ≠ .nulo then
            (explorarLaco esquerda entrada escolha).apos impresso
          else
            ⟨impresso ++ [.semEsquerda], .lacoEncerrado, entrada⟩
        else if escolha = 100 ∨ escolha = 68 then
          if direita ≠ .nulo then
            (explorarLaco direita entrada escolha).apos impresso
          else
            ⟨impresso ++ [.semDireita], .lacoEncerrado, entrada⟩
        else if escolha = 115 ∨ escolha = 83 then
          ⟨impresso ++ [.encerrando], .sair, entrada⟩
        else
          ⟨impresso ++ [.opcaoInvalida], .lacoEncerrado, entrada⟩

/-- Embeds `explorarSalas(atual)` (lines 46-106) run on standard input `entrada`;
`escolha0` is the indeterminate initial value of the uninitialised local `escolha`. -/
def explorarSalas (atual : Sala) (entrada : List Nat) (escolha0 : Nat) : Resultado :=
  (explorarLaco atual entrada escolha0).apos [.cabecalho]

/-! ## `liberarMemoria` -/

/-- The call `free(p)`: `p` is appended to the log of released pointers. -/
def free (p : Nat) (liberados : List Nat) : List Nat :=
  liberados ++ [p]

/-- Embeds `liberarMemoria(raiz)` (lines 113-123) as a transformer of the log of released
pointers. -/
def liberarMemoria : Sala → List Nat → List Nat
  | .nulo, liberados => liberados
  | .no ptr _ esquerda direita, liberados =>
    let liberados := liberarMemoria esquerda liberados
    let liberados := liberarMemoria direita liberados
    free ptr liberados

/-! ## Measures of a tree used by the statements -/

/-- Number of rooms (non-NULL nodes) of a tree. -/
def Sala.numNos : Sala → Nat
  | .nulo => 0
  | .no _ _ e d => 1 + e.numNos + d.numNos

/-- Names of the leaves of a tree (rooms whose two children are both NULL), left to right. -/
def Sala.folhas : Sala → List (List Nat)
  | .nulo => []
  | .no _ nome e d =>
    if e = .nulo ∧ d = .nulo then [nome] else e.folhas ++ d.folhas

/-- The memory image that `main` has built at line 156: the eight cells in allocation
order, each with its 50-byte name buffer and its two child pointers. -/
def celulasDoMapa : List SalaCel :=
  [ ⟨strncpy 49 (bytesDe "Hall de Entrada") ++ [0], 2, 3⟩,
    ⟨strncpy 49 (bytesDe "Sala de Estar") ++ [0], 4, 5⟩,
    ⟨strncpy 49 (bytesDe "Cozinha") ++ [0], 0, 6⟩,
    ⟨strncpy 49 (bytesDe "Escritório") ++ [0], 0, 0⟩,
    ⟨strncpy 49 (bytesDe "Jardim") ++ [0], 7, 0⟩,
    ⟨strncpy 49 (bytesDe "Biblioteca") ++ [0], 0, 8⟩,
    ⟨strncpy 49 (bytesDe "Quarto Principal") ++ [0], 0, 0⟩,
    ⟨strncpy 49 (bytesDe "Sala de Jantar") ++ [0], 0, 0⟩ ]

/-- The names shown by the "Você está em" lines of an output, in order. -/
def salasExibidas : List Evento → List (List Nat)
  | [] => []
  | .voceEstaEm nome :: evs => nome :: salasExibidas evs
  | _ :: evs => salasExibidas evs

/-- The names of the rooms on the path that the choices `cs` (each one e, 101, or d, 100)
spell from the root of a tree, root first, provided every chosen child is present and the
path ends at a leaf; `none` otherwise. -/
def caminhoAteFolha : Sala → List Nat → Option (List (List Nat))
  | .nulo, _ => none
  | .no _ nome e d, [] => if e = .nulo ∧ d = .nulo then some [nome] else none
  | .no _ nome e d, c :: cs =>
    if c = 101 then (caminhoAteFolha e cs).map (fun ns => nome :: ns)
    else if c = 100 then (caminhoAteFolha d cs).map (fun ns => nome :: ns)
    else none

/-- Successive choice reads (lines 75-76) on `entrada`, entered with `escolha` in the
variable, store exactly the choices `cs`, one per read; the answer is the input left
unread after the last of them, `none` when some read stores another byte or never ends. -/
def lerEscolhas : List Nat → Nat → List Nat → Option (List Nat)
  | entrada, _, [] => some entrada
  | entrada, escolha, c :: cs =>
    match lerEscolha entrada escolha with
    | none => none
    | some (lido, resto) => if lido = c then lerEscolhas resto lido cs else none

/-- A room name of 60 bytes, longer than the 49 bytes that `criarSala` keeps. -/
def nomeComprido : List Nat :=
  bytesDe "Sala de Estar com um nome muito mais comprido do que o vetor"

/-- A run that displayed exactly the rooms `nomes`, in that order, printed the completion
banner last and returned at a leaf, leaving `resto` of standard input unread. -/
def TerminaNaFolha (r : Resultado) (nomes : List (List Nat)) (resto : List Nat) : Prop :=
  r.fim = .folha ∧ salasExibidas r.saida = nomes ∧
    r.saida.getLast? = some .fimDaLinha ∧ r.resto = resto

/-- The pointers of the nodes reachable from the root of a tree, root first. -/
def Sala.ponteiros : Sala → List Nat
  | .nulo => []
  | .no p _ e d => p :: (e.ponteiros ++ d.ponteiros)

/-- The left-right-root post-order traversal of a tree, as the list of node pointers. -/
def Sala.posOrdem : Sala → List Nat
  | .nulo => []
  | .no p _ e d => e.posOrdem ++ d.posOrdem ++ [p]

/-- The nodes of a tree: the root and the nodes of its two subtrees. -/
def Sala.nos : Sala → List Sala
  | .nulo => []
  | .no p nome e d => .no p nome e d :: (e.nos ++ d.nos)

/-- Height of a tree, counted in levels of rooms: 0 for NULL, 1 for a leaf. -/
def Sala.altura : Sala → Nat
  | .nulo => 0
  | .no _ _ e d => 1 + max e.altura d.altura

/-- Number of choice reads a run has started: every read (lines 75-76) is preceded by
exactly one print of the quit option (line 72), and that print occurs nowhere else. -/
def numLeituras (saida : List Evento) : Nat :=
  saida.count .opcaoSair

/-- The notices of lines 86, 94 and 102 (no room to the left, no room to the right,
invalid option). -/
def ehAviso : Evento → Bool
  | .semEsquerda => true
  | .semDireita => true
  | .opcaoInvalida => true
  | _ => false

/-- The choice `c`, made at a room whose children are `e` and `d`, makes no move and does
not quit, and `aviso` is the notice it earns: an invalid character, e or E with no left
child, d or D with no right child. -/
def EscolhaSemMovimento (c : Nat) (e d : Sala) (aviso : Evento) : Prop :=
  (c ≠ 101 ∧ c ≠ 69 ∧ c ≠ 100 ∧ c ≠ 68 ∧ c ≠ 115 ∧ c ≠ 83 ∧ aviso = .opcaoInvalida) ∨
  ((c = 101 ∨ c = 69) ∧ e = .nulo ∧ aviso = .semEsquerda) ∨
  ((c = 100 ∨ c = 68) ∧ d = .nulo ∧ aviso = .semDireita)

/-- The room reached from the root by the moves `cs` (e or E to the left child, d or D to
the right child), every chosen child being present, together with the names of the rooms
left behind, root first; `none` when some choice of `cs` is not such a move. -/
def descer : Sala → List Nat → Option (List (List Nat) × Sala)
  | t, [] => some ([], t)
  | .nulo, _ :: _ => none
  | .no _ nome e d, c :: cs =>
    if c = 101 ∨ c = 69 then
      if e = .nulo then none else (descer e cs).map (fun r => (nome :: r.1, r.2))
    else if c = 100 ∨ c = 68 then
      if d = .nulo then none else (descer d cs).map (fun r => (nome :: r.1, r.2))
    else none

/-- A run that displayed exactly the rooms `nomes`, printed the single notice `aviso` as
its last output, printed neither the farewell notice nor the completion banner, and ended
because the loop test failed, leaving `resto` of standard input unread. -/
def EncerraComAviso (r : Resultado) (nomes : List (List Nat)) (aviso : Evento)
    (resto : List Nat) : Prop :=
  r.fim = .lacoEncerrado ∧ r.resto = resto ∧ r.saida.getLast? = some aviso ∧
    r.saida.filter ehAviso = [aviso] ∧ salasExibidas r.saida = nomes ∧
    Evento.encerrando ∉ r.saida ∧ Evento.fimDaLinha ∉ r.saida

/-- Lower-case form of a byte for the purposes of the choice: E, D, S become e, d, s and
every other byte is itself.  Two inputs with the same image differ only in the case of
some of their letters e, d, s. -/
def minuscula (c : Nat) : Nat :=
  if c = 69 then 101 else if c = 68 then 100 else if c = 83 then 115 else c

/-- Two runs with the same console output and the same ending, whose unread inputs differ
at most in the case of letters e, d, s. -/
def MesmaExecucao (r r2 : Resultado) : Prop :=
  r.saida = r2.saida ∧ r.fim = r2.fim ∧ r.resto.map minuscula = r2.resto.map minuscula

/-- The name of a room (the empty string for NULL, which has none). -/
def Sala.nomeDe : Sala → List Nat
  | .nulo => []
  | .no _ nome _ _ => nome

/-- The pointer of a room (0 for NULL). -/
def Sala.ponteiroDe : Sala → Nat
  | .nulo => 0
  | .no p _ _ _ => p

/-- The room `f` is the left or the right child of the room `s`. -/
def Sala.EhFilhoDe (f s : Sala) : Prop :=
  f ≠ .nulo ∧ ∃ p nome e d, s = .no p nome e d ∧ (f = e ∨ f = d)

/-- The rooms `vs` form a chain in the tree `t`: the first one is the root (when there is
one), each next room is a child of the previous one, every room of the chain is a node of
the tree, the pointers of the chain occur in the tree's list of pointers in the same order,
and no room occurs twice. -/
def CadeiaDeSalas (t : Sala) (vs : List Sala) : Prop :=
  (t ≠ .nulo → vs.head? = some t) ∧
    List.Chain' (fun a b => b.EhFilhoDe a) vs ∧
    (∀ s ∈ vs, s ∈ t.nos) ∧
    (vs.map Sala.ponteiroDe).Sublist t.ponteiros ∧
    vs.Nodup

/-! ## `explorarSalas` over memory -/

/-- Lines 65-72 for the cell `atual` of memory `m`: the names in the prompt are read through
the child pointers (`atual->esquerda->nome`, `atual->direita->nome`); `none` when a child
pointer that is not NULL has no cell. -/
def promptMem (m : Mem) (atual : SalaCel) : Option (List Evento) :=
  match (if atual.esquerda = 0 then some []
          else (m.cel atual.esquerda).map (fun c => [Evento.opcaoEsquerda (cstr c.nome)])),
        (if atual.direita = 0 then some []
          else (m.cel atual.direita).map (fun c => [Evento.opcaoDireita (cstr c.nome)])) with
  | some opcaoE, some opcaoD => some ([Evento.paraOnde] ++ opcaoE ++ opcaoD ++ [Evento.opcaoSair])
  | _, _ => none

/-- The `while (proximo != NULL)` loop of `explorarSalas` (lines 53-105) on pointers, in
state-passing style: the memory goes in and comes out with the run.  Every iteration
starts from the pointer `proximo`, reads the cell it points to, and ends by going round the
loop with the new value of `proximo` (NULL after line 78 unless line 84 or 92 assigns a
child).  `none` when `fuel` iterations do not suffice or a pointer has no cell. -/
def explorarLacoMem : Nat → Mem → Nat → List Nat → Nat → Option (Resultado × Mem)
  | 0, _, _, _, _ => none
  | fuel + 1, m, proximo, entrada, escolha =>
    if proximo = 0 then some (⟨[], .lacoEncerrado, entrada⟩, m)
    else
      match m.cel proximo with
      | none => none
      | some atual =>
        if atual.esquerda = 0 ∧ atual.direita = 0 then
          some (⟨[.voceEstaEm (cstr atual.nome), .fimDaLinha], .folha, entrada⟩, m)
        else
          match promptMem m atual with
          | none => none
          | some pr =>
            let impresso := Evento.voceEstaEm (cstr atual.nome) :: pr
            match lerEscolha entrada escolha with
            | none => some (⟨impresso, .semRetorno, []⟩, m)
            | some (escolha, entrada) =>
              if escolha = 101 ∨ escolha = 69 then
                if atual.esquerda ≠ 0 then
                  (explorarLacoMem fuel m atual.esquerda entrada escolha).map
                    (fun r => (r.1.apos impresso, r.2))
                else
                  (explorarLacoMem fuel m 0 entrada escolha).map
                    (fun r => (r.1.apos (impresso ++ [.semEsquerda]), r.2))
              else if escolha = 100 ∨ escolha = 68 then
                if atual.direita ≠ 0 then
                  (explorarLacoMem fuel m atual.direita entrada escolha).map
                    (fun r => (r.1.apos impresso, r.2))
                else
                  (explorarLacoMem fuel m 0 entrada escolha).map
                    (fun r => (r.1.apos (impresso ++ [.semDireita]), r.2))
              else if escolha = 115 ∨ escolha = 83 then
                some (⟨impresso ++ [.encerrando], .sair, entrada⟩, m)
              else
                (explorarLacoMem fuel m 0 entrada escolha).map
                  (fun r => (r.1.apos (impresso ++ [.opcaoInvalida]), r.2))

/-- The call `explorarSalas(atual)` on memory `m`: its run and the memory after it. -/
def explorarSalasMem (fuel : Nat) (m : Mem) (atual : Nat) (entrada : List Nat)
    (escolha0 : Nat) : Option (Resultado × Mem) :=
  (explorarLacoMem fuel m atual entrada escolha0).map
    (fun r => (r.1.apos [.cabecalho], r.2))

theorem criarSala_eq (nome : List Nat) (cs : List SalaCel) (lim : Nat) :
    criarSala nome ⟨cs, lim⟩
      = if cs.length < lim then
          some (cs.length + 1, ⟨cs ++ [⟨strncpy 49 nome ++ [0], 0, 0⟩], lim⟩)
        else none := by
  unfold criarSala malloc
  by_cases h : cs.length < lim <;> simp [h]

theorem mainMapa_some (limite : Nat) (h : 8 ≤ limite) :
    mainMapa ⟨[], limite⟩ = some (1, ⟨celulasDoMapa, limite⟩) := by
  have h0 : 0 < limite := by omega
  have h1 : 1 < limite := by omega
  have h2 : 2 < limite := by omega
  have h3 : 3 < limite := by omega
  have h4 : 4 < limite := by omega
  have h5 : 5 < limite := by omega
  have h6 : 6 < limite := by omega
  have h7 : 7 < limite := by omega
  simp only [mainMapa, criarSala_eq, setEsquerda, setDireita, bind, Option.bind,
    List.length_append, List.length_nil, List.length_cons, List.length_modify,
    List.length_singleton, Nat.zero_add, Nat.reduceAdd, h0, h1, h2, h3, h4, h5, h6, h7,
    if_true]
  rfl

theorem lerArvore_celulasDoMapa (limite : Nat) :
    lerArvore ⟨celulasDoMapa, limite⟩ 5 1 = some mapaFixo := by
  rfl

theorem strncpy_length (n : Nat) (nome : List Nat) : (strncpy n nome).length = n := by
  induction n generalizing nome with
  | zero => simp [strncpy]
  | succ n ih =>
    cases nome with
    | nil => simp [strncpy]
    | cons c cs =>
      by_cases hc : c = 0
      · simp [strncpy, hc]
      · simp [strncpy, hc, ih]

theorem cstr_strncpy (n : Nat) (nome : List Nat) (h : ∀ b ∈ nome, b ≠ 0) :
    cstr (strncpy n nome ++ [0]) = nome.take n := by
  induction n generalizing nome with
  | zero => simp [strncpy, cstr]
  | succ n ih =>
    cases nome with
    | nil => simp [strncpy, cstr, List.replicate_succ]
    | cons c cs =>
      have hc : c ≠ 0 := h c (by simp)
      have hcs : ∀ b ∈ cs, b ≠ 0 := fun b hb => h b (by simp [hb])
      have := ih cs hcs
      simp only [cstr] at this
      simp [strncpy, hc, cstr, this]

/-! ## Claims C6, C7, C10: the map built by `main`, `criarSala` -/

/-- Claim C6: whenever the allocator can hand out eight cells, the construction in `main`
succeeds and the tree that memory holds below `hallEntrada` is the fixed topology
`mapaFixo`: Hall de Entrada with left Sala de Estar and right Cozinha; Sala de Estar with
left Escritório (leaf) and right Jardim; Jardim with only the left child Quarto Principal
(leaf); Cozinha with only the right child Biblioteca; Biblioteca with only the right child
Sala de Jantar (leaf). -/
theorem main_constroi_mapaFixo (limite : Nat) (h : 8 ≤ limite) :
    ∃ hallEntrada m, mainMapa ⟨[], limite⟩ = some (hallEntrada, m) ∧
      lerArvore m 5 hallEntrada = some mapaFixo :=
  ⟨1, ⟨celulasDoMapa, limite⟩, mainMapa_some limite h, lerArvore_celulasDoMapa limite⟩

theorem main_constroi_mapaFixo_witness :
    8 ≤ 8 ∧ ∃ hallEntrada m, mainMapa ⟨[], 8⟩ = some (hallEntrada, m) ∧
      lerArvore m 5 hallEntrada = some mapaFixo :=
  ⟨by decide, main_constroi_mapaFixo 8 (by decide)⟩

/-- Claim C7: the tree built in `main` has exactly 8 nodes (and memory holds exactly 8
cells), it has exactly 3 leaves, and the leaves are the rooms named Escritório, Quarto
Principal and Sala de Jantar. -/
theorem main_oito_nos_tres_folhas (limite : Nat) (h : 8 ≤ limite) :
    ∃ hallEntrada m t, mainMapa ⟨[], limite⟩ = some (hallEntrada, m) ∧
      lerArvore m 5 hallEntrada = some t ∧
      m.celulas.length = 8 ∧ t.numNos = 8 ∧ t.folhas.length = 3 ∧
      t.folhas = [bytesDe "Escritório", bytesDe "Quarto Principal", bytesDe "Sala de Jantar"] :=
  ⟨1, ⟨celulasDoMapa, limite⟩, mapaFixo, mainMapa_some limite h,
    lerArvore_celulasDoMapa limite, rfl, rfl, rfl, rfl⟩

theorem main_oito_nos_tres_folhas_witness :
    8 ≤ 9 ∧ ∃ hallEntrada m t, mainMapa ⟨[], 9⟩ = some (hallEntrada, m) ∧
      lerArvore m 5 hallEntrada = some t ∧
      m.celulas.length = 8 ∧ t.numNos = 8 ∧ t.folhas.length = 3 ∧
      t.folhas = [bytesDe "Escritório", bytesDe "Quarto Principal", bytesDe "Sala de Jantar"] :=
  ⟨by decide, main_oito_nos_tres_folhas 9 (by decide)⟩

/-- Claim C10: for every name (the bytes before its terminating NUL, so none of them is 0)
and every memory in which `malloc` succeeds, `criarSala` returns a non-NULL pointer to a
new cell whose `esquerda` and `direita` are NULL and whose 50-byte buffer holds, as a C
string, the first `min (length nome) 49` bytes of the name: the name itself when it has at
most 49 bytes and its 49-byte prefix otherwise.  Read back as a tree, the pointer is a leaf
with that name. -/
theorem criarSala_nome_truncado (nome : List Nat) (m : Mem)
    (hnome : ∀ b ∈ nome, b ≠ 0) (hmem : m.celulas.length < m.limite) :
    ∃ p m' c, criarSala nome m = some (p, m') ∧ p ≠ 0 ∧ m'.cel p = some c ∧
      c.esquerda = 0 ∧ c.direita = 0 ∧ c.nome.length = 50 ∧
      cstr c.nome = nome.take (min nome.length 49) ∧
      (nome.length ≤ 49 → cstr c.nome = nome) ∧
      (49 < nome.length → cstr c.nome = nome.take 49) ∧
      lerArvore m' 2 p = some (.no p (nome.take (min nome.length 49)) .nulo .nulo) := by
  have hcs : cstr (strncpy 49 nome ++ [0]) = nome.take (min nome.length 49) := by
    rw [cstr_strncpy 49 nome hnome]
    rcases Nat.le_total nome.length 49 with hle | hle
    · rw [Nat.min_eq_left hle, List.take_of_length_le hle, List.take_of_length_le (le_refl _)]
    · rw [Nat.min_eq_right hle]
  have hcel : Mem.cel { m with celulas := m.celulas ++ [⟨strncpy 49 nome ++ [0], 0, 0⟩] }
      (m.celulas.length + 1) = some ⟨strncpy 49 nome ++ [0], 0, 0⟩ := by
    simp [Mem.cel]
  refine ⟨m.celulas.length + 1,
    { m with celulas := m.celulas ++ [⟨strncpy 49 nome ++ [0], 0, 0⟩] },
    ⟨strncpy 49 nome ++ [0], 0, 0⟩, ?_, by omega, hcel, rfl, rfl, ?_, hcs, ?_, ?_, ?_⟩
  · simp [criarSala, malloc, hmem]
  · simp [strncpy_length]
  · intro hle
    rw [hcs, Nat.min_eq_left hle, List.take_of_length_le (le_refl _)]
  · intro hlt
    rw [hcs, Nat.min_eq_right (Nat.le_of_lt hlt)]
  · simp [lerArvore, hcel, hcs]

theorem criarSala_nome_truncado_witness :
    (∀ b ∈ nomeComprido, b ≠ 0) ∧ (0 < 8) ∧
    ∃ p m' c, criarSala nomeComprido ⟨[], 8⟩ = some (p, m') ∧ p ≠ 0 ∧
      m'.cel p = some c ∧
      c.esquerda = 0 ∧ c.direita = 0 ∧ c.nome.length = 50 ∧
      cstr c.nome = nomeComprido.take (min nomeComprido.length 49) ∧
      (nomeComprido.length ≤ 49 → cstr c.nome = nomeComprido) ∧
      (49 < nomeComprido.length → cstr c.nome = nomeComprido.take 49) ∧
      lerArvore m' 2 p
        = some (.no p (nomeComprido.take (min nomeComprido.length 49)) .nulo .nulo) :=
  ⟨by decide, by decide, criarSala_nome_truncado nomeComprido ⟨[], 8⟩ (by decide) (by decide)⟩

/-! ## One iteration of the loop of `explorarSalas` -/

theorem salasExibidas_append (xs ys : List Evento) :
    salasExibidas (xs ++ ys) = salasExibidas xs ++ salasExibidas ys := by
  induction xs with
  | nil => rfl
  | cons x xs ih => cases x <;> simp [salasExibidas, ih]

theorem salasExibidas_voceEstaEm (nome : List Nat) (evs : List Evento) :
    salasExibidas (.voceEstaEm nome :: evs) = nome :: salasExibidas evs := rfl

theorem salasExibidas_prompt (e d : Sala) : salasExibidas (prompt e d) = [] := by
  cases e <;> cases d <;> rfl

theorem caminhoAteFolha_nulo (cs : List Nat) : caminhoAteFolha .nulo cs = none := by
  cases cs <;> rfl

theorem explorarLaco_folha (p : Nat) (nome entrada : List Nat) (escolha : Nat) :
    explorarLaco (.no p nome .nulo .nulo) entrada escolha
      = ⟨[.voceEstaEm nome, .fimDaLinha], .folha, entrada⟩ := by
  simp [explorarLaco]

theorem explorarLaco_semRetorno (p : Nat) (nome : List Nat) (e d : Sala) (entrada : List Nat)
    (escolha : Nat) (hnf : ¬ (e = .nulo ∧ d = .nulo))
    (hler : lerEscolha entrada escolha = none) :
    explorarLaco (.no p nome e d) entrada escolha
      = ⟨.voceEstaEm nome :: prompt e d, .semRetorno, []⟩ := by
  simp only [explorarLaco, if_neg hnf, hler]

theorem explorarLaco_esquerda (p : Nat) (nome : List Nat) (e d : Sala) (entrada : List Nat)
    (escolha c : Nat) (resto : List Nat) (he : e ≠ .nulo)
    (hc : c = 101 ∨ c = 69) (hler : lerEscolha entrada escolha = some (c, resto)) :
    explorarLaco (.no p nome e d) entrada escolha
      = (explorarLaco e resto c).apos (.voceEstaEm nome :: prompt e d) := by
  have hnf : ¬ (e = .nulo ∧ d = .nulo) := fun h => he h.1
  rw [explorarLaco, if_neg hnf]
  simp only [hler, if_pos hc, ne_eq, he, not_false_eq_true, if_true]

theorem explorarLaco_semEsquerda (p : Nat) (nome : List Nat) (d : Sala) (entrada : List Nat)
    (escolha c : Nat) (resto : List Nat) (hd : d ≠ .nulo)
    (hc : c = 101 ∨ c = 69) (hler : lerEscolha entrada escolha = some (c, resto)) :
    explorarLaco (.no p nome .nulo d) entrada escolha
      = ⟨.voceEstaEm nome :: prompt .nulo d ++ [.semEsquerda], .lacoEncerrado, resto⟩ := by
  have hnf : ¬ ((Sala.nulo = .nulo) ∧ d = .nulo) := fun h => hd h.2
  rw [explorarLaco, if_neg hnf]
  simp only [hler, if_pos hc, ne_eq, not_true_eq_false, if_false, List.cons_append]

theorem explorarLaco_direita (p : Nat) (nome : List Nat) (e d : Sala) (entrada : List Nat)
    (escolha c : Nat) (resto : List Nat) (hd : d ≠ .nulo)
    (hc : c = 100 ∨ c = 68) (hler : lerEscolha entrada escolha = some (c, resto)) :
    explorarLaco (.no p nome e d) entrada escolha
      = (explorarLaco d resto c).apos (.voceEstaEm nome :: prompt e d) := by
  have hnf : ¬ (e = .nulo ∧ d = .nulo) := fun h => hd h.2
  have hne : ¬ (c = 101 ∨ c = 69) := by omega
  rw [explorarLaco, if_neg hnf]
  simp only [hler, if_neg hne, if_pos hc, ne_eq, hd, not_false_eq_true, if_true]

theorem explorarLaco_semDireita (p : Nat) (nome : List Nat) (e : Sala) (entrada : List Nat)
    (escolha c : Nat) (resto : List Nat) (he : e ≠ .nulo)
    (hc : c = 100 ∨ c = 68) (hler : lerEscolha entrada escolha = some (c, resto)) :
    explorarLaco (.no p nome e .nulo) entrada escolha
      = ⟨.voceEstaEm nome :: prompt e .nulo ++ [.semDireita], .lacoEncerrado, resto⟩ := by
  have hnf : ¬ (e = .nulo ∧ (Sala.nulo = .nulo)) := fun h => he h.1
  have hne : ¬ (c = 101 ∨ c = 69) := by omega
  rw [explorarLaco, if_neg hnf]
  simp only [hler, if_neg hne, if_pos hc, ne_eq, not_true_eq_false, if_false,
    List.cons_append]

theorem explorarLaco_sair (p : Nat) (nome : List Nat) (e d : Sala) (entrada : List Nat)
    (escolha c : Nat) (resto : List Nat) (hnf : ¬ (e = .nulo ∧ d = .nulo))
    (hc : c = 115 ∨ c = 83) (hler : lerEscolha entrada escolha = some (c, resto)) :
    explorarLaco (.no p nome e d) entrada escolha
      = ⟨.voceEstaEm nome :: prompt e d ++ [.encerrando], .sair, resto⟩ := by
  have hne : ¬ (c = 101 ∨ c = 69) := by omega
  have hnd : ¬ (c = 100 ∨ c = 68) := by omega
  simp only [explorarLaco, if_neg hnf, hler, if_neg hne, if_neg hnd, if_pos hc,
    List.cons_append]

theorem explorarLaco_invalida (p : Nat) (nome : List Nat) (e d : Sala) (entrada : List Nat)
    (escolha c : Nat) (resto : List Nat) (hnf : ¬ (e = .nulo ∧ d = .nulo))
    (hc : c ≠ 101 ∧ c ≠ 69 ∧ c ≠ 100 ∧ c ≠ 68 ∧ c ≠ 115 ∧ c ≠ 83)
    (hler : lerEscolha entrada escolha = some (c, resto)) :
    explorarLaco (.no p nome e d) entrada escolha
      = ⟨.voceEstaEm nome :: prompt e d ++ [.opcaoInvalida], .lacoEncerrado, resto⟩ := by
  have hne : ¬ (c = 101 ∨ c = 69) := by omega
  have hnd : ¬ (c = 100 ∨ c = 68) := by omega
  have hns : ¬ (c = 115 ∨ c = 83) := by omega
  simp only [explorarLaco, if_neg hnf, hler, if_neg hne, if_neg hnd, if_neg hns,
    List.cons_append]

theorem lerEscolhas_cons (entrada : List Nat) (escolha c : Nat) (cs resto : List Nat)
    (h : lerEscolhas entrada escolha (c :: cs) = some resto) :
    ∃ r, lerEscolha entrada escolha = some (c, r) ∧ lerEscolhas r c cs = some resto := by
  simp only [lerEscolhas] at h
  split at h
  · simp at h
  · rename_i lido r hler
    split at h
    · rename_i hlido
      subst hlido
      exact ⟨r, hler, h⟩
    · simp at h

theorem explorarLaco_caminho (t : Sala) :
    ∀ (cs : List Nat) (nomes : List (List Nat)) (entrada : List Nat) (escolha : Nat)
      (resto : List Nat),
      caminhoAteFolha t cs = some nomes → lerEscolhas entrada escolha cs = some resto →
      (explorarLaco t entrada escolha).fim = .folha ∧
      salasExibidas (explorarLaco t entrada escolha).saida = nomes ∧
      (explorarLaco t entrada escolha).saida.getLast? = some .fimDaLinha ∧
      (explorarLaco t entrada escolha).resto = resto := by
  induction t with
  | nulo => intro cs nomes entrada escolha resto hc; simp [caminhoAteFolha_nulo] at hc
  | no ptr nome e d ihe ihd =>
    intro cs nomes entrada escolha resto hc hl
    cases cs with
    | nil =>
      simp only [caminhoAteFolha] at hc
      split at hc
      · rename_i hfolha
        simp only [lerEscolhas, Option.some.injEq] at hl
        simp only [Option.some.injEq] at hc
        obtain ⟨rfl, rfl⟩ := hfolha
        subst hc; subst hl
        rw [explorarLaco_folha]
        simp [salasExibidas]
      · simp at hc
    | cons c cs =>
      obtain ⟨r, hler, hl⟩ := lerEscolhas_cons entrada escolha c cs resto hl
      simp only [caminhoAteFolha] at hc
      split at hc
      · rename_i h101
        cases hcam : caminhoAteFolha e cs with
        | none => simp [hcam] at hc
        | some ns =>
          simp only [hcam, Option.map, Option.some.injEq] at hc
          have hne : e ≠ .nulo := by
            intro h0; subst h0; simp [caminhoAteFolha_nulo] at hcam
          obtain ⟨h1, h2, h3, h4⟩ := ihe cs ns r c resto hcam hl
          rw [explorarLaco_esquerda ptr nome e d entrada escolha c r hne (Or.inl h101) hler]
          subst hc
          refine ⟨h1, ?_, ?_, h4⟩
          · show salasExibidas (.voceEstaEm nome :: (prompt e d ++ _)) = _
            rw [salasExibidas_voceEstaEm, salasExibidas_append, salasExibidas_prompt, h2]
            rfl
          · simp only [Resultado.apos]
            rw [List.getLast?_append, h3]; rfl
      · split at hc
        · rename_i h100
          cases hcam : caminhoAteFolha d cs with
          | none => simp [hcam] at hc
          | some ns =>
            simp only [hcam, Option.map, Option.some.injEq] at hc
            have hne : d ≠ .nulo := by
              intro h0; subst h0; simp [caminhoAteFolha_nulo] at hcam
            obtain ⟨h1, h2, h3, h4⟩ := ihd cs ns r c resto hcam hl
            rw [explorarLaco_direita ptr nome e d entrada escolha c r hne (Or.inl h100) hler]
            subst hc
            refine ⟨h1, ?_, ?_, h4⟩
            · show salasExibidas (.voceEstaEm nome :: (prompt e d ++ _)) = _
              rw [salasExibidas_voceEstaEm, salasExibidas_append, salasExibidas_prompt, h2]
              rfl
            · simp only [Resultado.apos]
              rw [List.getLast?_append, h3]; rfl
        · simp at hc

/-! ## Claims C1-C5: the explorer -/

theorem explorarSalas_terminaNaFolha (t : Sala) (cs : List Nat) (nomes : List (List Nat))
    (entrada : List Nat) (escolha0 : Nat) (resto : List Nat)
    (hcam : caminhoAteFolha t cs = some nomes)
    (hler : lerEscolhas entrada escolha0 cs = some resto) :
    TerminaNaFolha (explorarSalas t entrada escolha0) nomes resto := by
  obtain ⟨h1, h2, h3, h4⟩ := explorarLaco_caminho t cs nomes entrada escolha0 resto hcam hler
  refine ⟨h1, ?_, ?_, h4⟩
  · show salasExibidas (.cabecalho :: _) = _
    exact h2
  · show (([Evento.cabecalho] : List Evento) ++ _).getLast? = _
    rw [List.getLast?_append, h3]; rfl

/-- Claim C1, the code at the failing input: on the fixed map, with standard input an
empty line, then x, then e (so that the first choice read is x), `explorarSalas` prints the
invalid-option notice and then the loop test `proximo != NULL` fails: the call ends at
once, Sala de Estar is never displayed and the line with e is left unread. -/
theorem explorarSalas_opcao_invalida_encerra (escolha0 : Nat) :
    explorarSalas mapaFixo (bytesDe "\nx\ne\n") escolha0 =
      ⟨[.cabecalho, .voceEstaEm (bytesDe "Hall de Entrada"), .paraOnde,
        .opcaoEsquerda (bytesDe "Sala de Estar"), .opcaoDireita (bytesDe "Cozinha"),
        .opcaoSair, .opcaoInvalida],
       .lacoEncerrado, bytesDe "\ne\n"⟩ := by
  rfl

/-- Claim C2, the code at the failing input: on the fixed map, with standard input an
empty line, then d, e, d (so that the choices read are d and then e), `explorarSalas`
moves to Cozinha, prints the no-room-to-the-left notice and then the loop test
`proximo != NULL` fails: the call ends at once, Biblioteca is never displayed and the last
line with d is left unread. -/
theorem explorarSalas_sem_esquerda_encerra (escolha0 : Nat) :
    explorarSalas mapaFixo (bytesDe "\nd\ne\nd\n") escolha0 =
      ⟨[.cabecalho, .voceEstaEm (bytesDe "Hall de Entrada"), .paraOnde,
        .opcaoEsquerda (bytesDe "Sala de Estar"), .opcaoDireita (bytesDe "Cozinha"),
        .opcaoSair, .voceEstaEm (bytesDe "Cozinha"), .paraOnde,
        .opcaoDireita (bytesDe "Biblioteca"), .opcaoSair, .semEsquerda],
       .lacoEncerrado, bytesDe "\nd\n"⟩ := by
  rfl

/-- Claim C3: for every tree and every sequence of choices e/d that spells a path from the
root to a leaf, on every standard input whose successive choice reads yield those choices,
`explorarSalas` displays exactly the names of the rooms on that path, root first, prints
the completion banner last and returns at the leaf.  On the fixed map the choices e,e end
at Escritório, d,d,d at Sala de Jantar and e,d,e at Quarto Principal. -/
theorem explorarSalas_caminho_ate_folha :
    (∀ (t : Sala) (cs : List Nat) (nomes : List (List Nat)) (entrada : List Nat)
        (escolha0 : Nat) (resto : List Nat),
        caminhoAteFolha t cs = some nomes → lerEscolhas entrada escolha0 cs = some resto →
        TerminaNaFolha (explorarSalas t entrada escolha0) nomes resto) ∧
    (∀ (entrada : List Nat) (escolha0 : Nat) (resto : List Nat),
        lerEscolhas entrada escolha0 (bytesDe "ee") = some resto →
        TerminaNaFolha (explorarSalas mapaFixo entrada escolha0)
          [bytesDe "Hall de Entrada", bytesDe "Sala de Estar", bytesDe "Escritório"] resto) ∧
    (∀ (entrada : List Nat) (escolha0 : Nat) (resto : List Nat),
        lerEscolhas entrada escolha0 (bytesDe "ddd") = some resto →
        TerminaNaFolha (explorarSalas mapaFixo entrada escolha0)
          [bytesDe "Hall de Entrada", bytesDe "Cozinha", bytesDe "Biblioteca",
            bytesDe "Sala de Jantar"] resto) ∧
    (∀ (entrada : List Nat) (escolha0 : Nat) (resto : List Nat),
        lerEscolhas entrada escolha0 (bytesDe "ede") = some resto →
        TerminaNaFolha (explorarSalas mapaFixo entrada escolha0)
          [bytesDe "Hall de Entrada", bytesDe "Sala de Estar", bytesDe "Jardim",
            bytesDe "Quarto Principal"] resto) :=
  ⟨explorarSalas_terminaNaFolha,
    fun entrada escolha0 resto h =>
      explorarSalas_terminaNaFolha mapaFixo (bytesDe "ee") _ entrada escolha0 resto rfl h,
    fun entrada escolha0 resto h =>
      explorarSalas_terminaNaFolha mapaFixo (bytesDe "ddd") _ entrada escolha0 resto rfl h,
    fun entrada escolha0 resto h =>
      explorarSalas_terminaNaFolha mapaFixo (bytesDe "ede") _ entrada escolha0 resto rfl h⟩

theorem explorarSalas_caminho_ate_folha_witness :
    caminhoAteFolha mapaFixo (bytesDe "ede")
        = some [bytesDe "Hall de Entrada", bytesDe "Sala de Estar", bytesDe "Jardim",
            bytesDe "Quarto Principal"] ∧
      lerEscolhas (bytesDe "\ne\nd\ne\n") 0 (bytesDe "ede") = some (bytesDe "\n") ∧
      TerminaNaFolha (explorarSalas mapaFixo (bytesDe "\ne\nd\ne\n") 0)
        [bytesDe "Hall de Entrada", bytesDe "Sala de Estar", bytesDe "Jardim",
          bytesDe "Quarto Principal"] (bytesDe "\n") :=
  ⟨by decide, by decide,
    explorarSalas_caminho_ate_folha.1 mapaFixo (bytesDe "ede") _ (bytesDe "\ne\nd\ne\n") 0
      (bytesDe "\n") (by decide) (by decide)⟩

/-- Claim C4, the code at the failing input: with standard input the two lines d and e,
the discard step of the first choice read removes the choice character d together with its
newline, so the first decision is made by the character of the second line; the second
read then meets end-of-file and the same e decides again.  The explorer goes to Sala de
Estar and Escritório and never to Cozinha. -/
theorem explorarSalas_primeira_linha_descartada (escolha0 : Nat) :
    descartarLinha (bytesDe "d\ne\n") = some (bytesDe "e\n") ∧
    lerEscolha (bytesDe "d\ne\n") escolha0 = some (101, bytesDe "\n") ∧
    explorarSalas mapaFixo (bytesDe "d\ne\n") escolha0 =
      ⟨[.cabecalho, .voceEstaEm (bytesDe "Hall de Entrada"), .paraOnde,
        .opcaoEsquerda (bytesDe "Sala de Estar"), .opcaoDireita (bytesDe "Cozinha"),
        .opcaoSair, .voceEstaEm (bytesDe "Sala de Estar"), .paraOnde,
        .opcaoEsquerda (bytesDe "Escritório"), .opcaoDireita (bytesDe "Jardim"),
        .opcaoSair, .voceEstaEm (bytesDe "Escritório"), .fimDaLinha],
       .folha, []⟩ :=
  ⟨rfl, rfl, rfl⟩

/-- Claim C5: at every room that is not a leaf, on every standard input whose choice read
yields s or S, `explorarSalas` prints the room, the prompt and the farewell notice and
returns at once: the only room displayed is the current one, the input after the choice
(`resto`) is left unread, and the output is the same for every other input whose choice
read yields s or S, whatever is queued after it. -/
theorem explorarSalas_sair_imediato (p : Nat) (nome : List Nat) (e d : Sala)
    (entrada : List Nat) (escolha0 c : Nat) (resto : List Nat)
    (hnf : ¬ (e = .nulo ∧ d = .nulo)) (hc : c = 115 ∨ c = 83)
    (hler : lerEscolha entrada escolha0 = some (c, resto)) :
    explorarSalas (.no p nome e d) entrada escolha0
      = ⟨.cabecalho :: .voceEstaEm nome :: prompt e d ++ [.encerrando], .sair, resto⟩ ∧
    salasExibidas (explorarSalas (.no p nome e d) entrada escolha0).saida = [nome] ∧
    ∀ (entrada2 : List Nat) (escolha2 c2 : Nat) (resto2 : List Nat),
      (c2 = 115 ∨ c2 = 83) → lerEscolha entrada2 escolha2 = some (c2, resto2) →
      (explorarSalas (.no p nome e d) entrada2 escolha2).saida
        = (explorarSalas (.no p nome e d) entrada escolha0).saida := by
  have key : ∀ (ent : List Nat) (esc c' : Nat) (r : List Nat),
      (c' = 115 ∨ c' = 83) → lerEscolha ent esc = some (c', r) →
      explorarSalas (.no p nome e d) ent esc
        = ⟨.cabecalho :: .voceEstaEm nome :: prompt e d ++ [.encerrando], .sair, r⟩ := by
    intro ent esc c' r hc' hl
    rw [explorarSalas, explorarLaco_sair p nome e d ent esc c' r hnf hc' hl]
    rfl
  refine ⟨key entrada escolha0 c resto hc hler, ?_, ?_⟩
  · rw [key entrada escolha0 c resto hc hler]
    show salasExibidas (.cabecalho :: .voceEstaEm nome :: (prompt e d ++ [.encerrando])) = _
    show salasExibidas (.voceEstaEm nome :: (prompt e d ++ [.encerrando])) = _
    rw [salasExibidas_voceEstaEm, salasExibidas_append, salasExibidas_prompt]
    rfl
  · intro entrada2 escolha2 c2 resto2 hc2 hl2
    rw [key entrada2 escolha2 c2 resto2 hc2 hl2, key entrada escolha0 c resto hc hler]

theorem explorarSalas_sair_imediato_witness :
    ¬ (alaEsquerda = .nulo ∧ alaDireita = .nulo) ∧ (83 = 115 ∨ 83 = 83) ∧
    lerEscolha (bytesDe "\nS\nd\nd\n") 0 = some (83, bytesDe "\nd\nd\n") ∧
    explorarSalas (.no 1 (bytesDe "Hall de Entrada") alaEsquerda alaDireita)
        (bytesDe "\nS\nd\nd\n") 0
      = ⟨.cabecalho :: .voceEstaEm (bytesDe "Hall de Entrada")
          :: prompt alaEsquerda alaDireita ++ [.encerrando], .sair, bytesDe "\nd\nd\n"⟩ :=
  ⟨by decide, by decide, by decide,
    (explorarSalas_sair_imediato 1 (bytesDe "Hall de Entrada") alaEsquerda alaDireita
      (bytesDe "\nS\nd\nd\n") 0 83 (bytesDe "\nd\nd\n")
      (by decide) (by decide) (by decide)).1⟩

/-! ## Claims C8, C9: `liberarMemoria` -/

theorem liberarMemoria_eq_posOrdem (t : Sala) :
    ∀ s : List Nat, liberarMemoria t s = s ++ t.posOrdem := by
  induction t with
  | nulo => intro s; simp [liberarMemoria, Sala.posOrdem]
  | no p nome e d ihe ihd =>
    intro s
    simp only [liberarMemoria, free, Sala.posOrdem, ihe, ihd, List.append_assoc]

theorem posOrdem_perm_ponteiros (t : Sala) : t.posOrdem.Perm t.ponteiros := by
  induction t with
  | nulo => exact List.Perm.refl _
  | no p nome e d ihe ihd =>
    simp only [Sala.posOrdem, Sala.ponteiros]
    exact (List.perm_append_singleton p _).trans ((ihe.append ihd).cons p)

theorem posOrdem_no_mem_nos (t : Sala) :
    ∀ (p : Nat) (nome : List Nat) (e d : Sala), Sala.no p nome e d ∈ t.nos →
      ∃ antes depois,
        t.posOrdem = antes ++ (e.posOrdem ++ d.posOrdem) ++ p :: depois := by
  induction t with
  | nulo => intro p nome e d h; simp [Sala.nos] at h
  | no p' nome' e' d' ihe ihd =>
    intro p nome e d h
    simp only [Sala.nos, List.mem_cons, List.mem_append] at h
    rcases h with h | h | h
    · injection h with h1 h2 h3 h4
      subst h1 h2 h3 h4
      exact ⟨[], [], by simp [Sala.posOrdem]⟩
    · obtain ⟨a, b, hab⟩ := ihe p nome e d h
      exact ⟨a, b ++ (d'.posOrdem ++ [p']), by simp [Sala.posOrdem, hab]⟩
    · obtain ⟨a, b, hab⟩ := ihd p nome e d h
      exact ⟨e'.posOrdem ++ a, b ++ [p'], by simp [Sala.posOrdem, hab]⟩

theorem indexOf_lt_of_nodup_append (antes meio depois : List Nat) (p q : Nat)
    (hnd : (antes ++ meio ++ p :: depois).Nodup) (hq : q ∈ meio) :
    (antes ++ meio ++ p :: depois).indexOf q < (antes ++ meio ++ p :: depois).indexOf p := by
  have hqm : q ∈ antes ++ meio := List.mem_append_right _ hq
  have hp : p ∉ antes ++ meio := by
    intro hmem
    have := (List.nodup_append.1 hnd).2.2
    exact this hmem (List.mem_cons_self p depois)
  rw [List.indexOf_append_of_mem hqm, List.indexOf_append_of_not_mem hp,
    List.indexOf_cons_self]
  have := List.indexOf_lt_length.2 hqm
  omega

/-- Claim C9: `liberarMemoria` on NULL frees nothing; on a node with subtrees `l` and `r`
its sequence of frees is the frees of `l`, then the frees of `r`, then the node itself;
hence on every tree the free order is the left-right-root post-order traversal. -/
theorem liberarMemoria_pos_ordem :
    (∀ s : List Nat, liberarMemoria .nulo s = s) ∧
    (∀ (p : Nat) (nome : List Nat) (l r : Sala) (s : List Nat),
      liberarMemoria (.no p nome l r) s
        = s ++ (liberarMemoria l [] ++ liberarMemoria r [] ++ [p])) ∧
    (∀ (t : Sala) (s : List Nat), liberarMemoria t s = s ++ t.posOrdem) := by
  refine ⟨fun s => rfl, ?_, fun t s => liberarMemoria_eq_posOrdem t s⟩
  intro p nome l r s
  simp only [liberarMemoria_eq_posOrdem, Sala.posOrdem, List.nil_append]

/-- Claim C8: for every finite binary tree of rooms (distinct nodes at distinct pointers),
`liberarMemoria(root)` frees exactly the nodes reachable from the root, each exactly once:
the sequence of freed pointers is a permutation of the tree's nodes and has no repetition;
and every node is freed strictly after all the nodes of its left and right subtrees. -/
theorem liberarMemoria_cada_no_uma_vez (t : Sala) (h : t.ponteiros.Nodup) :
    (liberarMemoria t []).Perm t.ponteiros ∧
    (liberarMemoria t []).Nodup ∧
    (∀ q : Nat, q ∈ liberarMemoria t [] ↔ q ∈ t.ponteiros) ∧
    (∀ q ∈ t.ponteiros, (liberarMemoria t []).count q = 1) ∧
    ∀ (p : Nat) (nome : List Nat) (e d : Sala), Sala.no p nome e d ∈ t.nos →
      ∀ q ∈ e.ponteiros ++ d.ponteiros,
        (liberarMemoria t []).indexOf q < (liberarMemoria t []).indexOf p := by
  have heq : liberarMemoria t [] = t.posOrdem := by
    rw [liberarMemoria_eq_posOrdem]; rfl
  have hperm : t.posOrdem.Perm t.ponteiros := posOrdem_perm_ponteiros t
  have hnd : t.posOrdem.Nodup := hperm.nodup_iff.2 h
  rw [heq]
  refine ⟨hperm, hnd, fun q => hperm.mem_iff, ?_, ?_⟩
  · intro q hq
    exact List.count_eq_one_of_mem hnd (hperm.mem_iff.2 hq)
  · intro p nome e d hmem q hq
    obtain ⟨antes, depois, hdec⟩ := posOrdem_no_mem_nos t p nome e d hmem
    have hq' : q ∈ e.posOrdem ++ d.posOrdem := by
      rcases List.mem_append.1 hq with hq | hq
      · exact List.mem_append_left _ ((posOrdem_perm_ponteiros e).mem_iff.2 hq)
      · exact List.mem_append_right _ ((posOrdem_perm_ponteiros d).mem_iff.2 hq)
    rw [hdec] at hnd ⊢
    exact indexOf_lt_of_nodup_append antes _ depois p q hnd hq'

theorem liberarMemoria_cada_no_uma_vez_witness :
    mapaFixo.ponteiros.Nodup ∧
    (liberarMemoria mapaFixo []).Perm mapaFixo.ponteiros ∧
    (liberarMemoria mapaFixo []).Nodup ∧
    (∀ q : Nat, q ∈ liberarMemoria mapaFixo [] ↔ q ∈ mapaFixo.ponteiros) ∧
    (∀ q ∈ mapaFixo.ponteiros, (liberarMemoria mapaFixo []).count q = 1) ∧
    ∀ (p : Nat) (nome : List Nat) (e d : Sala), Sala.no p nome e d ∈ mapaFixo.nos →
      ∀ q ∈ e.ponteiros ++ d.ponteiros,
        (liberarMemoria mapaFixo []).indexOf q < (liberarMemoria mapaFixo []).indexOf p :=
  ⟨by decide, liberarMemoria_cada_no_uma_vez mapaFixo (by decide)⟩

/-! ## Claims C12, C14, C18: leaves, the prompt, the choice read -/

/-- Claim C12: whenever the loop of `explorarSalas` is entered at a leaf, with any input and
any value of `escolha`, it displays the room, prints the completion banner and returns,
printing no prompt and leaving the whole input unread; in particular so does a call whose
starting room is a leaf, and an iteration that moves to a leaf child leaves unread
everything that follows the choice that led there. -/
theorem explorarSalas_na_folha :
    (∀ (p : Nat) (nome entrada : List Nat) (escolha : Nat),
      explorarLaco (.no p nome .nulo .nulo) entrada escolha
        = ⟨[.voceEstaEm nome, .fimDaLinha], .folha, entrada⟩) ∧
    (∀ (p : Nat) (nome entrada : List Nat) (escolha0 : Nat),
      explorarSalas (.no p nome .nulo .nulo) entrada escolha0
        = ⟨[.cabecalho, .voceEstaEm nome, .fimDaLinha], .folha, entrada⟩) ∧
    (∀ (p q : Nat) (nome nomeFilho : List Nat) (d : Sala) (entrada : List Nat)
        (escolha c : Nat) (resto : List Nat),
      (c = 101 ∨ c = 69) → lerEscolha entrada escolha = some (c, resto) →
      explorarLaco (.no p nome (.no q nomeFilho .nulo .nulo) d) entrada escolha
        = ⟨.voceEstaEm nome :: prompt (.no q nomeFilho .nulo .nulo) d
            ++ [.voceEstaEm nomeFilho, .fimDaLinha], .folha, resto⟩) ∧
    (∀ (p q : Nat) (nome nomeFilho : List Nat) (e : Sala) (entrada : List Nat)
        (escolha c : Nat) (resto : List Nat),
      (c = 100 ∨ c = 68) → lerEscolha entrada escolha = some (c, resto) →
      explorarLaco (.no p nome e (.no q nomeFilho .nulo .nulo)) entrada escolha
        = ⟨.voceEstaEm nome :: prompt e (.no q nomeFilho .nulo .nulo)
            ++ [.voceEstaEm nomeFilho, .fimDaLinha], .folha, resto⟩) := by
  refine ⟨explorarLaco_folha, ?_, ?_, ?_⟩
  · intro p nome entrada escolha0
    rw [explorarSalas, explorarLaco_folha]
    rfl
  · intro p q nome nomeFilho d entrada escolha c resto hc hler
    rw [explorarLaco_esquerda p nome _ d entrada escolha c resto (by simp) hc hler,
      explorarLaco_folha]
    simp [Resultado.apos]
  · intro p q nome nomeFilho e entrada escolha c resto hc hler
    rw [explorarLaco_direita p nome e _ entrada escolha c resto (by simp) hc hler,
      explorarLaco_folha]
    simp [Resultado.apos]

theorem explorarSalas_na_folha_witness :
    explorarLaco (.no 3 (bytesDe "Cozinha") (.no 6 (bytesDe "Biblioteca") .nulo .nulo) .nulo)
        (bytesDe "\nE\nd\n") 0
      = ⟨.voceEstaEm (bytesDe "Cozinha")
          :: prompt (.no 6 (bytesDe "Biblioteca") .nulo .nulo) .nulo
          ++ [.voceEstaEm (bytesDe "Biblioteca"), .fimDaLinha], .folha, bytesDe "\nd\n"⟩ :=
  explorarSalas_na_folha.2.2.1 3 6 (bytesDe "Cozinha") (bytesDe "Biblioteca") .nulo
    (bytesDe "\nE\nd\n") 0 69 (bytesDe "\nd\n") (by decide) (by decide)

theorem explorarLaco_saida_prefixo (p : Nat) (nome : List Nat) (e d : Sala)
    (entrada : List Nat) (escolha : Nat) (hnf : ¬ (e = .nulo ∧ d = .nulo)) :
    ∃ depois, (explorarLaco (.no p nome e d) entrada escolha).saida
      = .voceEstaEm nome :: prompt e d ++ depois := by
  rw [explorarLaco, if_neg hnf]
  cases hler : lerEscolha entrada escolha with
  | none => exact ⟨[], by simp⟩
  | some par =>
    obtain ⟨c, r⟩ := par
    simp only []
    split_ifs
    · exact ⟨(explorarLaco e r c).saida, by simp [Resultado.apos]⟩
    · exact ⟨[.semEsquerda], by simp⟩
    · exact ⟨(explorarLaco d r c).saida, by simp [Resultado.apos]⟩
    · exact ⟨[.semDireita], by simp⟩
    · exact ⟨[.encerrando], by simp⟩
    · exact ⟨[.opcaoInvalida], by simp⟩

/-- Claim C14: at every room that is not a leaf, whatever the input, `explorarSalas`
prints the room followed by the prompt, and the prompt offers the left direction exactly
when the left child is present, labelled with that child's name, offers the right
direction exactly when the right child is present, labelled with that child's name, and
always offers quit. -/
theorem explorarSalas_prompt_opcoes (p : Nat) (nome : List Nat) (e d : Sala)
    (entrada : List Nat) (escolha : Nat) (hnf : ¬ (e = .nulo ∧ d = .nulo)) :
    (∃ depois, (explorarLaco (.no p nome e d) entrada escolha).saida
      = .voceEstaEm nome :: prompt e d ++ depois) ∧
    (∀ n : List Nat, Evento.opcaoEsquerda n ∈ prompt e d ↔ ∃ q l r, e = .no q n l r) ∧
    (∀ n : List Nat, Evento.opcaoDireita n ∈ prompt e d ↔ ∃ q l r, d = .no q n l r) ∧
    ((∃ n, Evento.opcaoEsquerda n ∈ prompt e d) ↔ e ≠ .nulo) ∧
    ((∃ n, Evento.opcaoDireita n ∈ prompt e d) ↔ d ≠ .nulo) ∧
    Evento.opcaoSair ∈ prompt e d ∧
    (prompt e d).count .opcaoSair = 1 := by
  refine ⟨explorarLaco_saida_prefixo p nome e d entrada escolha hnf, ?_, ?_, ?_, ?_, ?_, ?_⟩
  · intro n
    cases e <;> cases d <;> simp [prompt, eq_comm]
  · intro n
    cases e <;> cases d <;> simp [prompt, eq_comm]
  · cases e <;> cases d <;> simp [prompt]
  · cases e <;> cases d <;> simp [prompt]
  · cases e <;> cases d <;> simp [prompt]
  · cases e <;> cases d <;> simp [prompt]

theorem explorarSalas_prompt_opcoes_witness :
    ¬ (alaEsquerda = .nulo ∧ alaDireita = .nulo) ∧
    (∃ depois, (explorarLaco (.no 1 (bytesDe "Hall de Entrada") alaEsquerda alaDireita)
        (bytesDe "\nd\n") 0).saida
      = .voceEstaEm (bytesDe "Hall de Entrada") :: prompt alaEsquerda alaDireita ++ depois) ∧
    (∀ n : List Nat, Evento.opcaoEsquerda n ∈ prompt alaEsquerda alaDireita
      ↔ ∃ q l r, alaEsquerda = .no q n l r) ∧
    (∀ n : List Nat, Evento.opcaoDireita n ∈ prompt alaEsquerda alaDireita
      ↔ ∃ q l r, alaDireita = .no q n l r) ∧
    ((∃ n, Evento.opcaoEsquerda n ∈ prompt alaEsquerda alaDireita) ↔ alaEsquerda ≠ .nulo) ∧
    ((∃ n, Evento.opcaoDireita n ∈ prompt alaEsquerda alaDireita) ↔ alaDireita ≠ .nulo) ∧
    Evento.opcaoSair ∈ prompt alaEsquerda alaDireita ∧
    (prompt alaEsquerda alaDireita).count .opcaoSair = 1 :=
  ⟨by decide,
    explorarSalas_prompt_opcoes 1 (bytesDe "Hall de Entrada") alaEsquerda alaDireita
      (bytesDe "\nd\n") 0 (by decide)⟩

theorem descartarLinha_append (pre r : List Nat) (h : 10 ∉ pre) :
    descartarLinha (pre ++ 10 :: r) = some r := by
  induction pre with
  | nil => simp [descartarLinha]
  | cons x xs ih =>
    have hx : x ≠ 10 := fun h0 => h (by simp [h0])
    have hxs : 10 ∉ xs := fun h0 => h (by simp [h0])
    simp [descartarLinha, hx, ih hxs]

theorem scanfChar_append (ws : List Nat) (c : Nat) (rest : List Nat) (escolha : Nat)
    (hws : ∀ w ∈ ws, isspace w = true) (hc : isspace c = false) :
    scanfChar (ws ++ c :: rest) escolha = (c, rest) := by
  induction ws with
  | nil => simp [scanfChar, hc]
  | cons x xs ih =>
    have hx : isspace x = true := hws x (by simp)
    have hxs : ∀ w ∈ xs, isspace w = true := fun w hw => hws w (by simp [hw])
    simp [scanfChar, hx, ih hxs]

theorem explorarLaco_congr_lerEscolha (p : Nat) (nome : List Nat) (e d : Sala)
    (entrada entrada2 : List Nat) (escolha escolha2 : Nat)
    (hnf : ¬ (e = .nulo ∧ d = .nulo))
    (h : lerEscolha entrada escolha = lerEscolha entrada2 escolha2) :
    explorarLaco (.no p nome e d) entrada escolha
      = explorarLaco (.no p nome e d) entrada2 escolha2 := by
  rw [explorarLaco, explorarLaco, if_neg hnf, if_neg hnf, h]

/-- Claim C18: every choice read of `explorarSalas` first discards the input up to and
including the next newline and then takes the next byte that is not white space as the
choice, and the loop uses its input through that read only.  Hence, for an input made of
lines, the run does not depend on the first line: the choice at the first prompt is the
first non-blank byte after the first newline. -/
theorem explorarSalas_descarta_ate_nova_linha :
    (∀ (pre r : List Nat), 10 ∉ pre → descartarLinha (pre ++ 10 :: r) = some r) ∧
    (∀ (pre ws : List Nat) (c : Nat) (rest : List Nat) (escolha : Nat),
      10 ∉ pre → (∀ w ∈ ws, isspace w = true) → isspace c = false →
      lerEscolha (pre ++ 10 :: (ws ++ c :: rest)) escolha = some (c, rest)) ∧
    (∀ (p : Nat) (nome : List Nat) (e d : Sala) (entrada entrada2 : List Nat)
        (escolha escolha2 : Nat),
      ¬ (e = .nulo ∧ d = .nulo) →
      lerEscolha entrada escolha = lerEscolha entrada2 escolha2 →
      explorarLaco (.no p nome e d) entrada escolha
        = explorarLaco (.no p nome e d) entrada2 escolha2) ∧
    (∀ (p : Nat) (nome : List Nat) (e d : Sala) (linha1 linha2 r : List Nat) (escolha0 : Nat),
      ¬ (e = .nulo ∧ d = .nulo) → 10 ∉ linha1 → 10 ∉ linha2 →
      explorarSalas (.no p nome e d) (linha1 ++ 10 :: r) escolha0
        = explorarSalas (.no p nome e d) (linha2 ++ 10 :: r) escolha0) := by
  refine ⟨descartarLinha_append, ?_, explorarLaco_congr_lerEscolha, ?_⟩
  · intro pre ws c rest escolha hpre hws hc
    simp only [lerEscolha, descartarLinha_append pre _ hpre,
      scanfChar_append ws c rest escolha hws hc]
  · intro p nome e d linha1 linha2 r escolha0 hnf h1 h2
    rw [explorarSalas, explorarSalas,
      explorarLaco_congr_lerEscolha p nome e d (linha1 ++ 10 :: r) (linha2 ++ 10 :: r)
        escolha0 escolha0 hnf]
    simp only [lerEscolha, descartarLinha_append linha1 r h1, descartarLinha_append linha2 r h2]

theorem explorarSalas_descarta_ate_nova_linha_witness :
    10 ∉ bytesDe "d" ∧ (∀ w ∈ bytesDe " \t", isspace w = true) ∧ isspace 101 = false ∧
    lerEscolha (bytesDe "d" ++ 10 :: (bytesDe " \t" ++ 101 :: bytesDe "\nd\n")) 0
      = some (101, bytesDe "\nd\n") :=
  ⟨by decide, by decide, by decide,
    explorarSalas_descarta_ate_nova_linha.2.1 (bytesDe "d") (bytesDe " \t") 101
      (bytesDe "\nd\n") 0 (by decide) (by decide) (by decide)⟩

/-! ## Claim C16: a choice that makes no move ends the call -/

theorem filter_ehAviso_prompt (e d : Sala) : (prompt e d).filter ehAviso = [] := by
  cases e <;> cases d <;> rfl

theorem encerrando_not_mem_prompt (e d : Sala) : Evento.encerrando ∉ prompt e d := by
  cases e <;> cases d <;> simp [prompt]

theorem fimDaLinha_not_mem_prompt (e d : Sala) : Evento.fimDaLinha ∉ prompt e d := by
  cases e <;> cases d <;> simp [prompt]

theorem lerEscolhas_singleton (entrada : List Nat) (escolha c : Nat) (resto : List Nat)
    (h : lerEscolhas entrada escolha [c] = some resto) :
    lerEscolha entrada escolha = some (c, resto) := by
  obtain ⟨r, h1, h2⟩ := lerEscolhas_cons entrada escolha c [] resto h
  simp only [lerEscolhas, Option.some.injEq] at h2
  rw [h1, h2]

theorem encerraComAviso_apos {r : Resultado} {nomes : List (List Nat)} {aviso : Evento}
    {resto : List Nat} (h : EncerraComAviso r nomes aviso resto) (nome : List Nat)
    (e d : Sala) :
    EncerraComAviso (r.apos (.voceEstaEm nome :: prompt e d)) (nome :: nomes) aviso resto := by
  obtain ⟨h1, h2, h3, h4, h5, h6, h7⟩ := h
  refine ⟨h1, h2, ?_, ?_, ?_, ?_, ?_⟩
  · show ((Evento.voceEstaEm nome :: prompt e d) ++ r.saida).getLast? = _
    rw [List.getLast?_append, h3]; rfl
  · show ((Evento.voceEstaEm nome :: prompt e d) ++ r.saida).filter ehAviso = _
    rw [List.filter_append, h4, List.filter_cons]
    simp [ehAviso, filter_ehAviso_prompt]
  · show salasExibidas (.voceEstaEm nome :: (prompt e d ++ r.saida)) = _
    rw [salasExibidas_voceEstaEm, salasExibidas_append, salasExibidas_prompt, h5]
    rfl
  · show Evento.encerrando ∉ (Evento.voceEstaEm nome :: prompt e d) ++ r.saida
    simp [h6, encerrando_not_mem_prompt]
  · show Evento.fimDaLinha ∉ (Evento.voceEstaEm nome :: prompt e d) ++ r.saida
    simp [h7, fimDaLinha_not_mem_prompt]

theorem encerraComAviso_base (nome : List Nat) (e d : Sala) (aviso : Evento)
    (resto : List Nat) (ha : aviso = .opcaoInvalida ∨ aviso = .semEsquerda ∨ aviso = .semDireita) :
    EncerraComAviso ⟨.voceEstaEm nome :: prompt e d ++ [aviso], .lacoEncerrado, resto⟩
      [nome] aviso resto := by
  refine ⟨rfl, rfl, ?_, ?_, ?_, ?_, ?_⟩
  · show (Evento.voceEstaEm nome :: prompt e d ++ [aviso]).getLast? = _
    rw [List.getLast?_append]; rfl
  · show (Evento.voceEstaEm nome :: prompt e d ++ [aviso]).filter ehAviso = _
    rw [List.filter_append, List.filter_cons]
    rcases ha with h | h | h <;> subst h <;> simp [ehAviso, filter_ehAviso_prompt]
  · show salasExibidas (.voceEstaEm nome :: (prompt e d ++ [aviso])) = _
    rw [salasExibidas_voceEstaEm, salasExibidas_append, salasExibidas_prompt]
    rcases ha with h | h | h <;> subst h <;> rfl
  · show Evento.encerrando ∉ (Evento.voceEstaEm nome :: prompt e d ++ [aviso])
    rcases ha with h | h | h <;> subst h <;> simp [encerrando_not_mem_prompt]
  · show Evento.fimDaLinha ∉ (Evento.voceEstaEm nome :: prompt e d ++ [aviso])
    rcases ha with h | h | h <;> subst h <;> simp [fimDaLinha_not_mem_prompt]

theorem explorarLaco_semMovimento (p : Nat) (nome : List Nat) (e d : Sala)
    (entrada : List Nat) (escolha c : Nat) (resto : List Nat) (aviso : Evento)
    (hnf : ¬ (e = .nulo ∧ d = .nulo)) (hc : EscolhaSemMovimento c e d aviso)
    (hler : lerEscolha entrada escolha = some (c, resto)) :
    explorarLaco (.no p nome e d) entrada escolha
      = ⟨.voceEstaEm nome :: prompt e d ++ [aviso], .lacoEncerrado, resto⟩ := by
  rcases hc with ⟨h1, h2, h3, h4, h5, h6, rfl⟩ | ⟨hc, rfl, rfl⟩ | ⟨hc, rfl, rfl⟩
  · exact explorarLaco_invalida p nome e d entrada escolha c resto hnf
      ⟨h1, h2, h3, h4, h5, h6⟩ hler
  · exact explorarLaco_semEsquerda p nome d entrada escolha c resto
      (fun h => hnf ⟨rfl, h⟩) hc hler
  · exact explorarLaco_semDireita p nome e entrada escolha c resto
      (fun h => hnf ⟨h, rfl⟩) hc hler

theorem explorarLaco_descer_semMovimento (cs : List Nat) :
    ∀ (t : Sala) (nomes : List (List Nat)) (p : Nat) (nome : List Nat) (e d : Sala)
      (c : Nat) (aviso : Evento) (entrada : List Nat) (escolha : Nat) (resto : List Nat),
      descer t cs = some (nomes, .no p nome e d) → ¬ (e = .nulo ∧ d = .nulo) →
      EscolhaSemMovimento c e d aviso →
      lerEscolhas entrada escolha (cs ++ [c]) = some resto →
      EncerraComAviso (explorarLaco t entrada escolha) (nomes ++ [nome]) aviso resto := by
  induction cs with
  | nil =>
    intro t nomes p nome e d c aviso entrada escolha resto hd hnf hc hl
    simp only [descer, Option.some.injEq, Prod.mk.injEq] at hd
    obtain ⟨rfl, rfl⟩ := hd
    have hler := lerEscolhas_singleton entrada escolha c resto hl
    rw [explorarLaco_semMovimento p nome e d entrada escolha c resto aviso hnf hc hler]
    apply encerraComAviso_base
    rcases hc with ⟨_, _, _, _, _, _, h⟩ | ⟨_, _, h⟩ | ⟨_, _, h⟩ <;> simp [h]
  | cons c0 cs ih =>
    intro t nomes p nome e d c aviso entrada escolha resto hd hnf hc hl
    obtain ⟨r, hler, hl⟩ := lerEscolhas_cons entrada escolha c0 (cs ++ [c]) resto hl
    cases t with
    | nulo => simp [descer] at hd
    | no p0 n0 e0 d0 =>
      simp only [descer] at hd
      split_ifs at hd with h1 h2 h3 h4
      · cases hde : descer e0 cs with
        | none => simp [hde] at hd
        | some par =>
          obtain ⟨ns, alvo⟩ := par
          simp only [hde, Option.map, Option.some.injEq, Prod.mk.injEq] at hd
          obtain ⟨rfl, rfl⟩ := hd
          rw [explorarLaco_esquerda p0 n0 e0 d0 entrada escolha c0 r h2 h1 hler]
          exact encerraComAviso_apos (ih e0 ns p nome e d c aviso r c0 resto hde hnf hc hl) n0 e0 d0
      · cases hde : descer d0 cs with
        | none => simp [hde] at hd
        | some par =>
          obtain ⟨ns, alvo⟩ := par
          simp only [hde, Option.map, Option.some.injEq, Prod.mk.injEq] at hd
          obtain ⟨rfl, rfl⟩ := hd
          rw [explorarLaco_direita p0 n0 e0 d0 entrada escolha c0 r h4 h3 hler]
          exact encerraComAviso_apos (ih d0 ns p nome e d c aviso r c0 resto hde hnf hc hl) n0 e0 d0

/-- Claim C16: in every run of `explorarSalas`, the first choice that makes no move (an
invalid character, or a direction whose child is absent), made at the room reached by the
moves `cs`, earns exactly one notice, the last output of the run, and the call returns
because the loop test fails: the input after that choice is left unread, the rooms
displayed are those of the path walked and none is displayed again, and neither the
farewell notice nor the completion banner is printed. -/
theorem explorarSalas_sem_movimento_encerra (t : Sala) (cs : List Nat)
    (nomes : List (List Nat)) (p : Nat) (nome : List Nat) (e d : Sala) (c : Nat)
    (aviso : Evento) (entrada : List Nat) (escolha0 : Nat) (resto : List Nat)
    (hdescer : descer t cs = some (nomes, .no p nome e d))
    (hnf : ¬ (e = .nulo ∧ d = .nulo))
    (hc : EscolhaSemMovimento c e d aviso)
    (hler : lerEscolhas entrada escolha0 (cs ++ [c]) = some resto) :
    EncerraComAviso (explorarSalas t entrada escolha0) (nomes ++ [nome]) aviso resto := by
  obtain ⟨h1, h2, h3, h4, h5, h6, h7⟩ :=
    explorarLaco_descer_semMovimento cs t nomes p nome e d c aviso entrada escolha0 resto
      hdescer hnf hc hler
  refine ⟨h1, h2, ?_, ?_, ?_, ?_, ?_⟩
  · show (([Evento.cabecalho] : List Evento) ++ _).getLast? = _
    rw [List.getLast?_append, h3]; rfl
  · show (([Evento.cabecalho] : List Evento) ++ _).filter ehAviso = _
    rw [List.filter_append, h4]; rfl
  · show salasExibidas (.cabecalho :: _) = _
    exact h5
  · show Evento.encerrando ∉ ([Evento.cabecalho] : List Evento) ++ _
    simp [h6]
  · show Evento.fimDaLinha ∉ ([Evento.cabecalho] : List Evento) ++ _
    simp [h7]

theorem explorarSalas_sem_movimento_encerra_witness :
    descer mapaFixo (bytesDe "D")
      = some ([bytesDe "Hall de Entrada"],
          .no 3 (bytesDe "Cozinha") .nulo
            (.no 6 (bytesDe "Biblioteca") .nulo
              (.no 8 (bytesDe "Sala de Jantar") .nulo .nulo))) ∧
    ¬ ((Sala.nulo = .nulo) ∧
        (Sala.no 6 (bytesDe "Biblioteca") .nulo
          (.no 8 (bytesDe "Sala de Jantar") .nulo .nulo)) = .nulo) ∧
    EscolhaSemMovimento 101 .nulo
      (.no 6 (bytesDe "Biblioteca") .nulo (.no 8 (bytesDe "Sala de Jantar") .nulo .nulo))
      .semEsquerda ∧
    lerEscolhas (bytesDe "\nD\ne\nd\n") 0 (bytesDe "D" ++ [101]) = some (bytesDe "\nd\n") ∧
    EncerraComAviso (explorarSalas mapaFixo (bytesDe "\nD\ne\nd\n") 0)
      ([bytesDe "Hall de Entrada"] ++ [bytesDe "Cozinha"]) .semEsquerda (bytesDe "\nd\n") :=
  ⟨by decide, by decide, Or.inr (Or.inl ⟨Or.inl rfl, rfl, rfl⟩), by decide,
    explorarSalas_sem_movimento_encerra mapaFixo (bytesDe "D") [bytesDe "Hall de Entrada"]
      3 (bytesDe "Cozinha") .nulo
      (.no 6 (bytesDe "Biblioteca") .nulo (.no 8 (bytesDe "Sala de Jantar") .nulo .nulo))
      101 .semEsquerda (bytesDe "\nD\ne\nd\n") 0 (bytesDe "\nd\n")
      (by decide) (by decide) (Or.inr (Or.inl ⟨Or.inl rfl, rfl, rfl⟩)) (by decide)⟩

/-! ## Claim C13: the choice is case-insensitive -/

theorem minuscula_eq_iff (a b : Nat) (h : minuscula a = minuscula b) :
    (a = 10 ↔ b = 10) ∧ isspace a = isspace b ∧
    ((a = 101 ∨ a = 69) ↔ (b = 101 ∨ b = 69)) ∧
    ((a = 100 ∨ a = 68) ↔ (b = 100 ∨ b = 68)) ∧
    ((a = 115 ∨ a = 83) ↔ (b = 115 ∨ b = 83)) := by
  unfold minuscula at h
  have hsp : isspace a = isspace b := by
    unfold isspace
    split_ifs at h <;> subst_vars <;> rfl
  refine ⟨?_, hsp, ?_, ?_, ?_⟩ <;> split_ifs at h <;> omega

theorem descartarLinha_minuscula (a : List Nat) :
    ∀ b : List Nat, a.map minuscula = b.map minuscula →
      (descartarLinha a).map (List.map minuscula)
        = (descartarLinha b).map (List.map minuscula) := by
  induction a with
  | nil =>
    intro b h
    cases b with
    | nil => rfl
    | cons y ys => simp at h
  | cons x xs ih =>
    intro b h
    cases b with
    | nil => simp at h
    | cons y ys =>
      simp only [List.map_cons, List.cons.injEq] at h
      obtain ⟨hxy, hrest⟩ := h
      have h10 := (minuscula_eq_iff x y hxy).1
      by_cases hx : x = 10
      · have hy : y = 10 := h10.1 hx
        simp [descartarLinha, hx, hy, hrest]
      · have hy : y ≠ 10 := fun h0 => hx (h10.2 h0)
        simp only [descartarLinha, if_neg hx, if_neg hy]
        exact ih ys hrest

theorem scanfChar_minuscula (a : List Nat) :
    ∀ (b : List Nat) (esc esc2 : Nat), a.map minuscula = b.map minuscula →
      minuscula esc = minuscula esc2 →
      minuscula (scanfChar a esc).1 = minuscula (scanfChar b esc2).1 ∧
      (scanfChar a esc).2.map minuscula = (scanfChar b esc2).2.map minuscula := by
  induction a with
  | nil =>
    intro b esc esc2 h hesc
    cases b with
    | nil => exact ⟨hesc, rfl⟩
    | cons y ys => simp at h
  | cons x xs ih =>
    intro b esc esc2 h hesc
    cases b with
    | nil => simp at h
    | cons y ys =>
      simp only [List.map_cons, List.cons.injEq] at h
      obtain ⟨hxy, hrest⟩ := h
      have hsp := (minuscula_eq_iff x y hxy).2.1
      cases hx : isspace x with
      | true =>
        have hy : isspace y = true := by rw [← hsp, hx]
        simp only [scanfChar, hx, hy, if_true]
        exact ih ys esc esc2 hrest hesc
      | false =>
        have hy : isspace y = false := by rw [← hsp, hx]
        simp only [scanfChar, hx, hy]
        exact ⟨hxy, hrest⟩

theorem lerEscolha_minuscula (a b : List Nat) (esc esc2 : Nat)
    (h : a.map minuscula = b.map minuscula) (hesc : minuscula esc = minuscula esc2) :
    (lerEscolha a esc = none ∧ lerEscolha b esc2 = none) ∨
    ∃ c r c2 r2, lerEscolha a esc = some (c, r) ∧ lerEscolha b esc2 = some (c2, r2) ∧
      minuscula c = minuscula c2 ∧ r.map minuscula = r2.map minuscula := by
  have hd := descartarLinha_minuscula a b h
  unfold lerEscolha
  cases ha : descartarLinha a with
  | none =>
    cases hb : descartarLinha b with
    | none => exact Or.inl ⟨rfl, rfl⟩
    | some y => simp [ha, hb] at hd
  | some x =>
    cases hb : descartarLinha b with
    | none => simp [ha, hb] at hd
    | some y =>
      simp only [ha, hb, Option.map, Option.some.injEq] at hd
      obtain ⟨h1, h2⟩ := scanfChar_minuscula x y esc esc2 hd hesc
      exact Or.inr ⟨_, _, _, _, rfl, rfl, h1, h2⟩

theorem mesmaExecucao_apos {r r2 : Resultado} (h : MesmaExecucao r r2) (evs : List Evento) :
    MesmaExecucao (r.apos evs) (r2.apos evs) := by
  obtain ⟨h1, h2, h3⟩ := h
  exact ⟨by show evs ++ r.saida = evs ++ r2.saida; rw [h1], h2, h3⟩

theorem explorarLaco_minuscula (t : Sala) :
    ∀ (a b : List Nat) (esc esc2 : Nat), a.map minuscula = b.map minuscula →
      minuscula esc = minuscula esc2 →
      MesmaExecucao (explorarLaco t a esc) (explorarLaco t b esc2) := by
  induction t with
  | nulo => intro a b esc esc2 h _; exact ⟨rfl, rfl, h⟩
  | no p nome e d ihe ihd =>
    intro a b esc esc2 h hesc
    by_cases hf : e = .nulo ∧ d = .nulo
    · obtain ⟨rfl, rfl⟩ := hf
      rw [explorarLaco_folha, explorarLaco_folha]
      exact ⟨rfl, rfl, h⟩
    · rcases lerEscolha_minuscula a b esc esc2 h hesc with ⟨h1, h2⟩ | ⟨c, r, c2, r2, h1, h2, hc, hr⟩
      · rw [explorarLaco_semRetorno p nome e d a esc hf h1,
          explorarLaco_semRetorno p nome e d b esc2 hf h2]
        exact ⟨rfl, rfl, rfl⟩
      · obtain ⟨_, _, hE, hD, hS⟩ := minuscula_eq_iff c c2 hc
        by_cases hcE : c = 101 ∨ c = 69
        · have hcE2 := hE.1 hcE
          by_cases he : e = .nulo
          · subst he
            have hd : d ≠ .nulo := fun h0 => hf ⟨rfl, h0⟩
            rw [explorarLaco_semEsquerda p nome d a esc c r hd hcE h1,
              explorarLaco_semEsquerda p nome d b esc2 c2 r2 hd hcE2 h2]
            exact ⟨rfl, rfl, hr⟩
          · rw [explorarLaco_esquerda p nome e d a esc c r he hcE h1,
              explorarLaco_esquerda p nome e d b esc2 c2 r2 he hcE2 h2]
            exact mesmaExecucao_apos (ihe r r2 c c2 hr hc) _
        · have hcE2 : ¬ (c2 = 101 ∨ c2 = 69) := fun h0 => hcE (hE.2 h0)
          by_cases hcD : c = 100 ∨ c = 68
          · have hcD2 := hD.1 hcD
            by_cases hd : d = .nulo
            · subst hd
              have he : e ≠ .nulo := fun h0 => hf ⟨h0, rfl⟩
              rw [explorarLaco_semDireita p nome e a esc c r he hcD h1,
                explorarLaco_semDireita p nome e b esc2 c2 r2 he hcD2 h2]
              exact ⟨rfl, rfl, hr⟩
            · rw [explorarLaco_direita p nome e d a esc c r hd hcD h1,
                explorarLaco_direita p nome e d b esc2 c2 r2 hd hcD2 h2]
              exact mesmaExecucao_apos (ihd r r2 c c2 hr hc) _
          · have hcD2 : ¬ (c2 = 100 ∨ c2 = 68) := fun h0 => hcD (hD.2 h0)
            by_cases hcS : c = 115 ∨ c = 83
            · have hcS2 := hS.1 hcS
              rw [explorarLaco_sair p nome e d a esc c r hf hcS h1,
                explorarLaco_sair p nome e d b esc2 c2 r2 hf hcS2 h2]
              exact ⟨rfl, rfl, hr⟩
            · have hcS2 : ¬ (c2 = 115 ∨ c2 = 83) := fun h0 => hcS (hS.2 h0)
              rw [explorarLaco_invalida p nome e d a esc c r hf (by omega) h1,
                explorarLaco_invalida p nome e d b esc2 c2 r2 hf (by omega) h2]
              exact ⟨rfl, rfl, hr⟩

/-- Claim C13: the resolution of the choice is case-insensitive: for every tree, two
standard inputs that differ only in the case of some of their letters e, d, s (any of
them replaced by E, D, S or the reverse) make `explorarSalas` print exactly the same output
(rooms, prompts and notices, in the same order) and end the same way, leaving unread
inputs that again differ only in that case. -/
theorem explorarSalas_sem_distincao_de_caixa (t : Sala) (entrada entrada2 : List Nat)
    (escolha0 escolha2 : Nat) (hentrada : entrada.map minuscula = entrada2.map minuscula)
    (hescolha : minuscula escolha0 = minuscula escolha2) :
    (explorarSalas t entrada escolha0).saida = (explorarSalas t entrada2 escolha2).saida ∧
    (explorarSalas t entrada escolha0).fim = (explorarSalas t entrada2 escolha2).fim ∧
    (explorarSalas t entrada escolha0).resto.map minuscula
      = (explorarSalas t entrada2 escolha2).resto.map minuscula :=
  mesmaExecucao_apos (explorarLaco_minuscula t entrada entrada2 escolha0 escolha2 hentrada hescolha) _

theorem explorarSalas_sem_distincao_de_caixa_witness :
    (bytesDe "\nE\nd\nS\n").map minuscula = (bytesDe "\ne\nD\ns\n").map minuscula ∧
    minuscula 0 = minuscula 0 ∧
    (explorarSalas mapaFixo (bytesDe "\nE\nd\nS\n") 0).saida
      = (explorarSalas mapaFixo (bytesDe "\ne\nD\ns\n") 0).saida ∧
    (explorarSalas mapaFixo (bytesDe "\nE\nd\nS\n") 0).fim
      = (explorarSalas mapaFixo (bytesDe "\ne\nD\ns\n") 0).fim ∧
    (explorarSalas mapaFixo (bytesDe "\nE\nd\nS\n") 0).resto.map minuscula
      = (explorarSalas mapaFixo (bytesDe "\ne\nD\ns\n") 0).resto.map minuscula :=
  ⟨by decide, by decide,
    explorarSalas_sem_distincao_de_caixa mapaFixo (bytesDe "\nE\nd\nS\n")
      (bytesDe "\ne\nD\ns\n") 0 0 (by decide) (by decide)⟩

/-! ## One iteration of the loop, by cases -/

theorem explorarLaco_passo (p : Nat) (nome : List Nat) (e d : Sala) (entrada : List Nat)
    (escolha : Nat) (hnf : ¬ (e = .nulo ∧ d = .nulo)) :
    (lerEscolha entrada escolha = none ∧
      explorarLaco (.no p nome e d) entrada escolha
        = ⟨.voceEstaEm nome :: prompt e d, .semRetorno, []⟩) ∨
    (∃ c r, lerEscolha entrada escolha = some (c, r) ∧ e ≠ .nulo ∧
      explorarLaco (.no p nome e d) entrada escolha
        = (explorarLaco e r c).apos (.voceEstaEm nome :: prompt e d)) ∨
    (∃ c r, lerEscolha entrada escolha = some (c, r) ∧ d ≠ .nulo ∧
      explorarLaco (.no p nome e d) entrada escolha
        = (explorarLaco d r c).apos (.voceEstaEm nome :: prompt e d)) ∨
    (∃ c r aviso, lerEscolha entrada escolha = some (c, r) ∧
      EscolhaSemMovimento c e d aviso ∧
      explorarLaco (.no p nome e d) entrada escolha
        = ⟨.voceEstaEm nome :: prompt e d ++ [aviso], .lacoEncerrado, r⟩) ∨
    (∃ c r, lerEscolha entrada escolha = some (c, r) ∧ (c = 115 ∨ c = 83) ∧
      explorarLaco (.no p nome e d) entrada escolha
        = ⟨.voceEstaEm nome :: prompt e d ++ [.encerrando], .sair, r⟩) := by
  cases hler : lerEscolha entrada escolha with
  | none => exact Or.inl ⟨rfl, explorarLaco_semRetorno p nome e d entrada escolha hnf hler⟩
  | some par =>
    obtain ⟨c, r⟩ := par
    right
    by_cases hcE : c = 101 ∨ c = 69
    · by_cases he : e = .nulo
      · right; right; left
        have hc : EscolhaSemMovimento c e d .semEsquerda := Or.inr (Or.inl ⟨hcE, he, rfl⟩)
        exact ⟨c, r, _, rfl, hc,
          explorarLaco_semMovimento p nome e d entrada escolha c r _ hnf hc hler⟩
      · left
        exact ⟨c, r, rfl, he, explorarLaco_esquerda p nome e d entrada escolha c r he hcE hler⟩
    · by_cases hcD : c = 100 ∨ c = 68
      · by_cases hd : d = .nulo
        · right; right; left
          have hc : EscolhaSemMovimento c e d .semDireita := Or.inr (Or.inr ⟨hcD, hd, rfl⟩)
          exact ⟨c, r, _, rfl, hc,
            explorarLaco_semMovimento p nome e d entrada escolha c r _ hnf hc hler⟩
        · right; left
          exact ⟨c, r, rfl, hd,
            explorarLaco_direita p nome e d entrada escolha c r hd hcD hler⟩
      · by_cases hcS : c = 115 ∨ c = 83
        · right; right; right
          exact ⟨c, r, rfl, hcS, explorarLaco_sair p nome e d entrada escolha c r hnf hcS hler⟩
        · right; right; left
          have hc : EscolhaSemMovimento c e d .opcaoInvalida :=
            Or.inl ⟨by omega, by omega, by omega, by omega, by omega, by omega, rfl⟩
          exact ⟨c, r, _, rfl, hc,
            explorarLaco_semMovimento p nome e d entrada escolha c r _ hnf hc hler⟩

theorem salasExibidas_impresso_aviso (nome : List Nat) (e d : Sala) (ev : Evento)
    (hev : ∀ n, ev ≠ .voceEstaEm n) :
    salasExibidas (.voceEstaEm nome :: prompt e d ++ [ev]) = [nome] := by
  show salasExibidas (.voceEstaEm nome :: (prompt e d ++ [ev])) = _
  rw [salasExibidas_voceEstaEm, salasExibidas_append, salasExibidas_prompt]
  cases ev <;> first | rfl | exact absurd rfl (hev _)

theorem EscolhaSemMovimento.aviso_ne {c : Nat} {e d : Sala} {aviso : Evento}
    (h : EscolhaSemMovimento c e d aviso) : ∀ n, aviso ≠ .voceEstaEm n := by
  intro n
  rcases h with ⟨_, _, _, _, _, _, h⟩ | ⟨_, _, h⟩ | ⟨_, _, h⟩ <;> simp [h]

theorem altura_pos (t : Sala) (h : t ≠ .nulo) : 1 ≤ t.altura := by
  cases t with
  | nulo => exact absurd rfl h
  | no p n e d => simp [Sala.altura]

theorem salasExibidas_apos (r : Resultado) (nome : List Nat) (e d : Sala) :
    salasExibidas (r.apos (.voceEstaEm nome :: prompt e d)).saida
      = nome :: salasExibidas r.saida := by
  show salasExibidas (.voceEstaEm nome :: (prompt e d ++ r.saida)) = _
  rw [salasExibidas_voceEstaEm, salasExibidas_append, salasExibidas_prompt]
  rfl

/-! ## Claim C17: the rooms displayed form a chain -/

theorem numNos_le_of_mem_nos (t : Sala) : ∀ s ∈ t.nos, s.numNos ≤ t.numNos := by
  induction t with
  | nulo => intro s hs; simp [Sala.nos] at hs
  | no p n e d ihe ihd =>
    intro s hs
    simp only [Sala.nos, List.mem_cons, List.mem_append] at hs
    rcases hs with rfl | hs | hs
    · exact le_refl _
    · have := ihe s hs; simp only [Sala.numNos]; omega
    · have := ihd s hs; simp only [Sala.numNos]; omega

theorem no_mem_nos_self (p : Nat) (n : List Nat) (e d : Sala) :
    Sala.no p n e d ∈ (Sala.no p n e d).nos := by
  simp [Sala.nos]

theorem cadeiaDeSalas_singleton (p : Nat) (n : List Nat) (e d : Sala) :
    CadeiaDeSalas (.no p n e d) [.no p n e d] := by
  refine ⟨fun _ => rfl, List.chain'_singleton _, ?_, ?_, List.nodup_singleton _⟩
  · intro s hs
    rw [List.mem_singleton] at hs
    subst hs
    exact no_mem_nos_self p n e d
  · show [p].Sublist (p :: (e.ponteiros ++ d.ponteiros))
    exact List.Sublist.cons₂ p (List.nil_sublist _)

theorem cadeiaDeSalas_cons (p : Nat) (n : List Nat) (e d filho : Sala) (vs : List Sala)
    (hfilho : filho = e ∨ filho = d) (hne : filho ≠ .nulo) (h : CadeiaDeSalas filho vs) :
    CadeiaDeSalas (.no p n e d) (.no p n e d :: vs) := by
  obtain ⟨h1, h2, h3, h4, h5⟩ := h
  have hsub : ∀ s ∈ vs, s ∈ e.nos ++ d.nos := by
    intro s hs
    rcases hfilho with rfl | rfl
    · exact List.mem_append_left _ (h3 s hs)
    · exact List.mem_append_right _ (h3 s hs)
  refine ⟨fun _ => rfl, ?_, ?_, ?_, ?_⟩
  · rw [List.chain'_cons']
    refine ⟨?_, h2⟩
    intro y hy
    rw [h1 hne] at hy
    simp only [Option.mem_def, Option.some.injEq] at hy
    subst hy
    exact ⟨hne, p, n, e, d, rfl, hfilho⟩
  · intro s hs
    rcases List.mem_cons.1 hs with rfl | hs
    · exact no_mem_nos_self p n e d
    · simp only [Sala.nos, List.mem_cons]
      exact Or.inr (hsub s hs)
  · show (p :: vs.map Sala.ponteiroDe).Sublist (p :: (e.ponteiros ++ d.ponteiros))
    apply List.Sublist.cons₂
    rcases hfilho with rfl | rfl
    · exact h4.trans (List.sublist_append_left _ _)
    · exact h4.trans (List.sublist_append_right _ _)
  · rw [List.nodup_cons]
    refine ⟨?_, h5⟩
    intro hmem
    have hle : (Sala.no p n e d).numNos ≤ filho.numNos :=
      numNos_le_of_mem_nos filho _ (h3 _ hmem)
    have : filho.numNos ≤ e.numNos + d.numNos := by
      rcases hfilho with rfl | rfl <;> omega
    simp only [Sala.numNos] at hle
    omega

theorem numLeituras_impresso (nome : List Nat) (e d : Sala) (depois : List Evento) :
    numLeituras (.voceEstaEm nome :: prompt e d ++ depois) = 1 + numLeituras depois := by
  unfold numLeituras
  show List.count Evento.opcaoSair (.voceEstaEm nome :: (prompt e d ++ depois)) = _
  rw [List.count_cons_of_ne (by simp), List.count_append]
  cases e <;> cases d <;> simp [prompt]

theorem explorarLaco_cadeia (t : Sala) :
    ∀ (entrada : List Nat) (escolha : Nat), t ≠ .nulo →
      ∃ vs : List Sala,
        salasExibidas (explorarLaco t entrada escolha).saida = vs.map Sala.nomeDe ∧
        CadeiaDeSalas t vs ∧
        numLeituras (explorarLaco t entrada escolha).saida + 1 ≤ t.altura := by
  induction t with
  | nulo => intro entrada escolha h; exact absurd rfl h
  | no p nome e d ihe ihd =>
    intro entrada escolha _
    by_cases hf : e = .nulo ∧ d = .nulo
    · obtain ⟨rfl, rfl⟩ := hf
      refine ⟨[.no p nome .nulo .nulo], ?_, cadeiaDeSalas_singleton _ _ _ _, ?_⟩
      · rw [explorarLaco_folha]; rfl
      · rw [explorarLaco_folha]; simp [numLeituras, Sala.altura]
    · have h2 : 2 ≤ (Sala.no p nome e d).altura := by
        simp only [Sala.altura]
        by_cases he : e = .nulo
        · have := altura_pos d (fun h0 => hf ⟨he, h0⟩); omega
        · have := altura_pos e he; omega
      rcases explorarLaco_passo p nome e d entrada escolha hf with
        ⟨_, h3⟩ | ⟨c, r, _, hne, h3⟩ | ⟨c, r, _, hne, h3⟩ | ⟨c, r, a, _, ha, h3⟩ | ⟨c, r, _, _, h3⟩
      · refine ⟨[.no p nome e d], ?_, cadeiaDeSalas_singleton _ _ _ _, ?_⟩
        · rw [h3]
          show salasExibidas (.voceEstaEm nome :: prompt e d) = _
          rw [salasExibidas_voceEstaEm, salasExibidas_prompt]; rfl
        · rw [h3]
          have := numLeituras_impresso nome e d []
          simp only [List.append_nil] at this
          show numLeituras (.voceEstaEm nome :: prompt e d) + 1 ≤ _
          rw [this]; simp [numLeituras]; omega
      · obtain ⟨vs, hv1, hv2, hv3⟩ := ihe r c hne
        refine ⟨.no p nome e d :: vs, ?_,
          cadeiaDeSalas_cons p nome e d e vs (Or.inl rfl) hne hv2, ?_⟩
        · rw [h3, salasExibidas_apos, hv1]; rfl
        · rw [h3]
          show numLeituras (.voceEstaEm nome :: prompt e d ++ _) + 1 ≤ _
          rw [numLeituras_impresso]
          simp only [Sala.altura]; omega
      · obtain ⟨vs, hv1, hv2, hv3⟩ := ihd r c hne
        refine ⟨.no p nome e d :: vs, ?_,
          cadeiaDeSalas_cons p nome e d d vs (Or.inr rfl) hne hv2, ?_⟩
        · rw [h3, salasExibidas_apos, hv1]; rfl
        · rw [h3]
          show numLeituras (.voceEstaEm nome :: prompt e d ++ _) + 1 ≤ _
          rw [numLeituras_impresso]
          simp only [Sala.altura]; omega
      · refine ⟨[.no p nome e d], ?_, cadeiaDeSalas_singleton _ _ _ _, ?_⟩
        · rw [h3]
          show salasExibidas (.voceEstaEm nome :: prompt e d ++ [a]) = _
          rw [salasExibidas_impresso_aviso nome e d a ha.aviso_ne]; rfl
        · rw [h3]
          show numLeituras (.voceEstaEm nome :: prompt e d ++ [a]) + 1 ≤ _
          rw [numLeituras_impresso]
          have : numLeituras [a] = 0 := by
            rcases ha with ⟨_, _, _, _, _, _, h⟩ | ⟨_, _, h⟩ | ⟨_, _, h⟩ <;> subst h <;> rfl
          omega
      · refine ⟨[.no p nome e d], ?_, cadeiaDeSalas_singleton _ _ _ _, ?_⟩
        · rw [h3]
          show salasExibidas (.voceEstaEm nome :: prompt e d ++ [.encerrando]) = _
          rw [salasExibidas_impresso_aviso nome e d _ (by simp)]; rfl
        · rw [h3]
          show numLeituras (.voceEstaEm nome :: prompt e d ++ [.encerrando]) + 1 ≤ _
          rw [numLeituras_impresso]
          have : numLeituras [Evento.encerrando] = 0 := rfl
          omega

/-- Claim C17: for every finite tree and every input, the rooms displayed by
`explorarSalas` are the names of a chain of rooms that starts at the starting room and in
which each next room is a child of the previous one; hence every displayed room is a node
of the tree, no room is displayed twice (the chain has no repetition, and its pointers are
distinct when the tree's are), and the number of choice reads is at most the height of the
tree counted in edges, which is 3 on the fixed map. -/
theorem explorarSalas_cadeia_de_salas :
    (∀ (t : Sala) (entrada : List Nat) (escolha0 : Nat),
      ∃ vs : List Sala,
        salasExibidas (explorarSalas t entrada escolha0).saida = vs.map Sala.nomeDe ∧
        CadeiaDeSalas t vs ∧
        (t.ponteiros.Nodup → (vs.map Sala.ponteiroDe).Nodup) ∧
        numLeituras (explorarSalas t entrada escolha0).saida ≤ t.altura - 1) ∧
    (∀ (entrada : List Nat) (escolha0 : Nat),
      numLeituras (explorarSalas mapaFixo entrada escolha0).saida ≤ 3) := by
  have geral : ∀ (t : Sala) (entrada : List Nat) (escolha0 : Nat),
      ∃ vs : List Sala,
        salasExibidas (explorarSalas t entrada escolha0).saida = vs.map Sala.nomeDe ∧
        CadeiaDeSalas t vs ∧
        (t.ponteiros.Nodup → (vs.map Sala.ponteiroDe).Nodup) ∧
        numLeituras (explorarSalas t entrada escolha0).saida ≤ t.altura - 1 := by
    intro t entrada escolha0
    by_cases ht : t = .nulo
    · subst ht
      refine ⟨[], rfl, ⟨fun h => absurd rfl h, List.chain'_nil, ?_, ?_, List.nodup_nil⟩,
        fun _ => List.nodup_nil, ?_⟩
      · intro s hs; simp at hs
      · exact List.nil_sublist _
      · simp [explorarSalas, explorarLaco, Resultado.apos, numLeituras]
    · obtain ⟨vs, h1, h2, h3⟩ := explorarLaco_cadeia t entrada escolha0 ht
      refine ⟨vs, ?_, h2, fun hnd => h2.2.2.2.1.nodup hnd, ?_⟩
      · show salasExibidas (.cabecalho :: _) = _
        exact h1
      · have : numLeituras (explorarSalas t entrada escolha0).saida
            = numLeituras (explorarLaco t entrada escolha0).saida := by
          show numLeituras (.cabecalho :: (explorarLaco t entrada escolha0).saida) = _
          unfold numLeituras
          exact List.count_cons_of_ne (by simp) _
        rw [this]; omega
  refine ⟨geral, ?_⟩
  intro entrada escolha0
  obtain ⟨vs, _, _, _, h⟩ := geral mapaFixo entrada escolha0
  have halt : mapaFixo.altura = 4 := by decide
  rw [halt] at h
  exact h

theorem explorarSalas_cadeia_de_salas_witness :
    mapaFixo.ponteiros.Nodup ∧
    ∃ vs : List Sala,
      salasExibidas (explorarSalas mapaFixo (bytesDe "\nd\nd\n") 0).saida
        = vs.map Sala.nomeDe ∧
      CadeiaDeSalas mapaFixo vs ∧ (vs.map Sala.ponteiroDe).Nodup ∧
      numLeituras (explorarSalas mapaFixo (bytesDe "\nd\nd\n") 0).saida ≤ mapaFixo.altura - 1 :=
  ⟨by decide, by
    obtain ⟨vs, h1, h2, h3, h4⟩ :=
      explorarSalas_cadeia_de_salas.1 mapaFixo (bytesDe "\nd\nd\n") 0
    exact ⟨vs, h1, h2, h3 (by decide), h4⟩⟩

/-! ## Claim C15: `explorarSalas` leaves the tree as it was -/

theorem explorarLacoMem_mem (fuel : Nat) :
    ∀ (m : Mem) (p : Nat) (entrada : List Nat) (escolha : Nat) (r : Resultado) (m2 : Mem),
      explorarLacoMem fuel m p entrada escolha = some (r, m2) → m2 = m := by
  induction fuel with
  | zero => intro m p entrada escolha r m2 h; simp [explorarLacoMem] at h
  | succ fuel ih =>
    intro m p entrada escolha r m2 h
    have hrec : ∀ (q : Nat) (ent : List Nat) (esc : Nat) (f : Resultado → Resultado),
        (explorarLacoMem fuel m q ent esc).map (fun x => (f x.1, x.2)) = some (r, m2) →
        m2 = m := by
      intro q ent esc f hq
      cases hx : explorarLacoMem fuel m q ent esc with
      | none => simp [hx] at hq
      | some x =>
        obtain ⟨r1, m1⟩ := x
        simp only [hx, Option.map, Option.some.injEq, Prod.mk.injEq] at hq
        rw [← hq.2]
        exact ih m q ent esc r1 m1 hx
    have hsome : ∀ (x : Resultado), some (x, m) = some (r, m2) → m2 = m := by
      intro x hx
      simp only [Option.some.injEq, Prod.mk.injEq] at hx
      exact hx.2.symm
    unfold explorarLacoMem at h
    by_cases h0 : p = 0
    · rw [if_pos h0] at h; exact hsome _ h
    · rw [if_neg h0] at h
      cases hc : m.cel p with
      | none => simp [hc] at h
      | some c =>
        simp only [hc] at h
        by_cases hf : c.esquerda = 0 ∧ c.direita = 0
        · rw [if_pos hf] at h; exact hsome _ h
        · rw [if_neg hf] at h
          cases hp : promptMem m c with
          | none => simp [hp] at h
          | some pr =>
            simp only [hp] at h
            cases hl : lerEscolha entrada escolha with
            | none => simp only [hl] at h; exact hsome _ h
            | some par =>
              obtain ⟨ch, ent⟩ := par
              simp only [hl] at h
              by_cases hE : ch = 101 ∨ ch = 69
              · rw [if_pos hE] at h
                by_cases he : c.esquerda ≠ 0
                · rw [if_pos he] at h; exact hrec _ _ _ _ h
                · rw [if_neg he] at h; exact hrec _ _ _ _ h
              · rw [if_neg hE] at h
                by_cases hD : ch = 100 ∨ ch = 68
                · rw [if_pos hD] at h
                  by_cases hd : c.direita ≠ 0
                  · rw [if_pos hd] at h; exact hrec _ _ _ _ h
                  · rw [if_neg hd] at h; exact hrec _ _ _ _ h
                · rw [if_neg hD] at h
                  by_cases hS : ch = 115 ∨ ch = 83
                  · rw [if_pos hS] at h; exact hsome _ h
                  · rw [if_neg hS] at h; exact hrec _ _ _ _ h

theorem lerArvore_some_iff_nulo (m : Mem) (fuel q : Nat) (t : Sala)
    (h : lerArvore m fuel q = some t) : (q = 0 ↔ t = .nulo) ∧ 1 ≤ fuel := by
  cases fuel with
  | zero => simp [lerArvore] at h
  | succ fuel =>
    refine ⟨?_, by omega⟩
    unfold lerArvore at h
    by_cases h0 : q = 0
    · rw [if_pos h0] at h
      simp only [Option.some.injEq] at h
      exact ⟨fun _ => h.symm, fun _ => h0⟩
    · rw [if_neg h0] at h
      cases hc : m.cel q with
      | none => simp [hc] at h
      | some c =>
        simp only [hc] at h
        split at h
        · simp only [Option.some.injEq] at h
          subst h
          exact ⟨fun h1 => absurd h1 h0, fun h1 => by cases h1⟩
        · simp at h

theorem lerArvore_no (m : Mem) (fuel q : Nat) (t : Sala) (h0 : q ≠ 0)
    (h : lerArvore m (fuel + 1) q = some t) :
    ∃ c e d, m.cel q = some c ∧ lerArvore m fuel c.esquerda = some e ∧
      lerArvore m fuel c.direita = some d ∧ t = .no q (cstr c.nome) e d := by
  unfold lerArvore at h
  rw [if_neg h0] at h
  cases hc : m.cel q with
  | none => simp [hc] at h
  | some c =>
    simp only [hc] at h
    cases he : lerArvore m fuel c.esquerda with
    | none => simp [he] at h
    | some e =>
      cases hd : lerArvore m fuel c.direita with
      | none => simp [he, hd] at h
      | some d =>
        simp only [he, hd, Option.some.injEq] at h
        exact ⟨c, e, d, rfl, he, hd, h.symm⟩

theorem lerArvore_casos (m : Mem) (fuel q : Nat) (t : Sala)
    (h : lerArvore m fuel q = some t) :
    (q = 0 ∧ t = .nulo) ∨
    (∃ c l r, q ≠ 0 ∧ m.cel q = some c ∧ t = .no q (cstr c.nome) l r) := by
  cases fuel with
  | zero => simp [lerArvore] at h
  | succ fuel =>
    by_cases h0 : q = 0
    · exact Or.inl ⟨h0, ((lerArvore_some_iff_nulo m _ q t h).1).1 h0⟩
    · obtain ⟨c, e, d, hc, _, _, ht⟩ := lerArvore_no m fuel q t h0 h
      exact Or.inr ⟨c, e, d, h0, hc, ht⟩

theorem promptMem_eq (m : Mem) (fuel : Nat) (c : SalaCel) (e d : Sala)
    (he : lerArvore m fuel c.esquerda = some e) (hd : lerArvore m fuel c.direita = some d) :
    promptMem m c = some (prompt e d) := by
  unfold promptMem
  rcases lerArvore_casos m fuel c.esquerda e he with ⟨h1, rfl⟩ | ⟨c1, l1, r1, h1, hc1, rfl⟩ <;>
  rcases lerArvore_casos m fuel c.direita d hd with ⟨h2, rfl⟩ | ⟨c2, l2, r2, h2, hc2, rfl⟩
  · simp only [if_pos h1, if_pos h2]; rfl
  · simp only [if_pos h1, if_neg h2, hc2]; rfl
  · simp only [if_neg h1, if_pos h2, hc1]; rfl
  · simp only [if_neg h1, if_neg h2, hc1, hc2]; rfl

theorem explorarLacoMem_zero (fuel : Nat) (m : Mem) (entrada : List Nat) (escolha : Nat)
    (h : 1 ≤ fuel) :
    explorarLacoMem fuel m 0 entrada escolha = some (⟨[], .lacoEncerrado, entrada⟩, m) := by
  cases fuel with
  | zero => omega
  | succ fuel => simp [explorarLacoMem]

theorem explorarLacoMem_eq_explorarLaco (fuel : Nat) :
    ∀ (m : Mem) (p : Nat) (t : Sala) (entrada : List Nat) (escolha : Nat),
      lerArvore m fuel p = some t →
      explorarLacoMem fuel m p entrada escolha = some (explorarLaco t entrada escolha, m) := by
  induction fuel with
  | zero => intro m p t entrada escolha h; simp [lerArvore] at h
  | succ fuel ih =>
    intro m p t entrada escolha h
    by_cases h0 : p = 0
    · have ht := ((lerArvore_some_iff_nulo m _ p t h).1).1 h0
      subst ht; subst h0
      simp [explorarLacoMem, explorarLaco]
    · obtain ⟨c, e, d, hc, he, hd, rfl⟩ := lerArvore_no m fuel p t h0 h
      obtain ⟨hez, hfuel⟩ := lerArvore_some_iff_nulo m fuel c.esquerda e he
      obtain ⟨hdz, _⟩ := lerArvore_some_iff_nulo m fuel c.direita d hd
      unfold explorarLacoMem
      rw [if_neg h0]
      simp only [hc]
      by_cases hf : e = .nulo ∧ d = .nulo
      · have hf2 : c.esquerda = 0 ∧ c.direita = 0 := ⟨hez.2 hf.1, hdz.2 hf.2⟩
        obtain ⟨rfl, rfl⟩ := hf
        rw [if_pos hf2, explorarLaco_folha]
      · have hf2 : ¬ (c.esquerda = 0 ∧ c.direita = 0) :=
          fun h1 => hf ⟨hez.1 h1.1, hdz.1 h1.2⟩
        rw [if_neg hf2]
        simp only [promptMem_eq m fuel c e d he hd]
        have hnulo : ∀ (ent : List Nat) (esc : Nat) (evs : List Evento),
            (explorarLacoMem fuel m 0 ent esc).map (fun x => (x.1.apos evs, x.2))
              = some (⟨evs, .lacoEncerrado, ent⟩, m) := by
          intro ent esc evs
          rw [explorarLacoMem_zero fuel m ent esc hfuel]
          simp [Resultado.apos]
        cases hl : lerEscolha entrada escolha with
        | none =>
          simp only []
          rw [explorarLaco_semRetorno p (cstr c.nome) e d entrada escolha hf hl]
        | some par =>
          obtain ⟨ch, r⟩ := par
          simp only []
          by_cases hE : ch = 101 ∨ ch = 69
          · rw [if_pos hE]
            by_cases hez0 : c.esquerda = 0
            · have he0 : e = .nulo := hez.1 hez0
              subst he0
              have hd0 : d ≠ .nulo := fun h1 => hf ⟨rfl, h1⟩
              rw [if_neg (not_not.2 hez0), hnulo,
                explorarLaco_semEsquerda p (cstr c.nome) d entrada escolha ch r hd0 hE hl]
            · have he0 : e ≠ .nulo := fun h1 => hez0 (hez.2 h1)
              rw [if_pos hez0, ih m c.esquerda e r ch he,
                explorarLaco_esquerda p (cstr c.nome) e d entrada escolha ch r he0 hE hl]
              rfl
          · rw [if_neg hE]
            by_cases hD : ch = 100 ∨ ch = 68
            · rw [if_pos hD]
              by_cases hdz0 : c.direita = 0
              · have hd0 : d = .nulo := hdz.1 hdz0
                subst hd0
                have he0 : e ≠ .nulo := fun h1 => hf ⟨h1, rfl⟩
                rw [if_neg (not_not.2 hdz0), hnulo,
                  explorarLaco_semDireita p (cstr c.nome) e entrada escolha ch r he0 hD hl]
              · have hd0 : d ≠ .nulo := fun h1 => hdz0 (hdz.2 h1)
                rw [if_pos hdz0, ih m c.direita d r ch hd,
                  explorarLaco_direita p (cstr c.nome) e d entrada escolha ch r hd0 hD hl]
                rfl
            · rw [if_neg hD]
              by_cases hS : ch = 115 ∨ ch = 83
              · rw [if_pos hS,
                  explorarLaco_sair p (cstr c.nome) e d entrada escolha ch r hf hS hl]
              · rw [if_neg hS, hnulo,
                  explorarLaco_invalida p (cstr c.nome) e d entrada escolha ch r hf
                    (by omega) hl]

/-- Claim C15: `explorarSalas` does not mutate the tree.  Whatever the memory, the pointer
and the input, the memory a call hands back is the memory it received, so every room has
the same name, left child and right child as before; and when memory holds a finite tree
below the pointer, the call does produce its run (the run of the tree embedding) and the
tree read back afterwards is the same. -/
theorem explorarSalas_nao_altera_arvore :
    (∀ (fuel : Nat) (m : Mem) (atual : Nat) (entrada : List Nat) (escolha0 : Nat)
        (r : Resultado) (m2 : Mem),
      explorarSalasMem fuel m atual entrada escolha0 = some (r, m2) →
      m2 = m ∧ ∀ q : Nat, m2.cel q = m.cel q) ∧
    (∀ (fuel : Nat) (m : Mem) (atual : Nat) (t : Sala) (entrada : List Nat) (escolha0 : Nat),
      lerArvore m fuel atual = some t →
      ∃ m2, explorarSalasMem fuel m atual entrada escolha0
          = some (explorarSalas t entrada escolha0, m2) ∧
        (∀ q : Nat, m2.cel q = m.cel q) ∧ lerArvore m2 fuel atual = some t) := by
  constructor
  · intro fuel m atual entrada escolha0 r m2 h
    unfold explorarSalasMem at h
    cases hx : explorarLacoMem fuel m atual entrada escolha0 with
    | none => simp [hx] at h
    | some x =>
      obtain ⟨r1, m1⟩ := x
      simp only [hx, Option.map, Option.some.injEq, Prod.mk.injEq] at h
      have := explorarLacoMem_mem fuel m atual entrada escolha0 r1 m1 hx
      rw [← h.2, this]
      exact ⟨rfl, fun _ => rfl⟩
  · intro fuel m atual t entrada escolha0 h
    refine ⟨m, ?_, fun _ => rfl, h⟩
    unfold explorarSalasMem
    rw [explorarLacoMem_eq_explorarLaco fuel m atual t entrada escolha0 h]
    rfl

theorem explorarSalas_nao_altera_arvore_witness :
    lerArvore ⟨celulasDoMapa, 8⟩ 5 1 = some mapaFixo ∧
    ∃ m2, explorarSalasMem 5 ⟨celulasDoMapa, 8⟩ 1 (bytesDe "\ne\nd\ne\n") 0
        = some (explorarSalas mapaFixo (bytesDe "\ne\nd\ne\n") 0, m2) ∧
      (∀ q : Nat, m2.cel q = Mem.cel ⟨celulasDoMapa, 8⟩ q) ∧
      lerArvore m2 5 1 = some mapaFixo :=
  ⟨by rfl,
    explorarSalas_nao_altera_arvore.2 5 ⟨celulasDoMapa, 8⟩ 1 mapaFixo (bytesDe "\ne\nd\ne\n") 0
      (by rfl)⟩

/-! ## Claim C11: termination on valid choices -/

end DetectiveQuest
